import Mathlib

/-!
Verification of the Download Queue Manager of the civitai-collection-downloader
repository (`src/utils/download.js`, class `DownloadManager`).

The JavaScript code is shallowly embedded as follows:

* the pure helpers (`extractFilename`, `init`'s option coalescing, the id
  template of `addToQueue`) become Lean functions over `String`/`List Char`/`Nat`;
* the stateful manager becomes an explicit state record `DMState` plus one
  atomic action function per synchronous stretch of code between two
  cooperative suspension points (`await`s), and a small-step relation `Step`
  whose nondeterminism models the event-loop interleaving of the driving
  loop in `start()`, the per-item `processItem` tasks, the platform
  (chrome.downloads) callbacks, and the external control calls
  (`addToQueue`, `pause`, `resume`, `cancel`).

Ghost instrumentation (not part of the JS state, recorded for observation
only): `everCancelled` (latches that `cancel()` has been called),
`aborted` (the arguments of every `chrome.downloads.cancel` invocation) and
`errorCalls` (the items for which the `onError` callback fired).

All definitions are structurally recursive so that concrete runs evaluate
inside the kernel.
-/

/-! ### Decimal rendering

`addToQueue` builds default ids with the template `item_${Date.now()}_${index}`
and the `extractFilename` fallback uses `media_${Date.now()}.jpg`; both render
naturals in decimal.  `natStr` is that decimal rendering; the fuel-based digit
list is proved equal to `Nat.digits 10` so that injectivity can be derived. -/

/-- Little-endian base-10 digits, fuel-recursive so the kernel can reduce it. -/
def natDigitsRev : Nat → Nat → List Nat
  | 0, _ => []
  | fuel + 1, n => if n = 0 then [] else n % 10 :: natDigitsRev fuel (n / 10)

theorem natDigitsRev_eq_digits : ∀ (fuel n : Nat), n ≤ fuel →
    natDigitsRev fuel n = Nat.digits 10 n
  | 0, n, h => by
    have : n = 0 := Nat.le_zero.mp h
    simp [natDigitsRev, this]
  | fuel + 1, n, h => by
    by_cases hn : n = 0
    · simp [natDigitsRev, hn]
    · have hpos : 0 < n := Nat.pos_of_ne_zero hn
      have hdiv : n / 10 ≤ fuel := by
        have := Nat.div_lt_self hpos (by norm_num : 1 < 10)
        omega
      rw [Nat.digits_def' (by norm_num : 1 < 10) hpos]
      simp only [natDigitsRev, if_neg hn]
      rw [natDigitsRev_eq_digits fuel (n / 10) hdiv]

/-- Decimal rendering of a natural number, as produced by JavaScript string
interpolation of a nonnegative integer. -/
def natStr (n : Nat) : String :=
  if n = 0 then "0" else (((natDigitsRev n n).map Nat.digitChar).reverse).asString

example : natStr 0 = "0" := by decide
example : natStr 1759 = "1759" := by decide

theorem digitChar_inj {a b : Nat} (ha : a < 10) (hb : b < 10)
    (h : Nat.digitChar a = Nat.digitChar b) : a = b := by
  have key : ∀ x y : Fin 10, Nat.digitChar x.val = Nat.digitChar y.val → x = y := by decide
  have := key ⟨a, ha⟩ ⟨b, hb⟩ h
  exact congrArg Fin.val this

theorem map_digitChar_inj : ∀ (l₁ l₂ : List Nat), (∀ x ∈ l₁, x < 10) → (∀ x ∈ l₂, x < 10) →
    l₁.map Nat.digitChar = l₂.map Nat.digitChar → l₁ = l₂
  | [], [], _, _, _ => rfl
  | [], _ :: _, _, _, h => by simp at h
  | _ :: _, [], _, _, h => by simp at h
  | a :: l₁, b :: l₂, h₁, h₂, h => by
    simp only [List.map_cons, List.cons.injEq] at h
    have hab := digitChar_inj (h₁ a (by simp)) (h₂ b (by simp)) h.1
    have hl := map_digitChar_inj l₁ l₂ (fun x hx => h₁ x (by simp [hx]))
      (fun x hx => h₂ x (by simp [hx])) h.2
    rw [hab, hl]

theorem natStr_injective : Function.Injective natStr := by
  have base : ∀ n : Nat, natStr n =
      if n = 0 then "0" else (((Nat.digits 10 n).map Nat.digitChar).reverse).asString := by
    intro n
    unfold natStr
    by_cases hn : n = 0
    · simp [hn]
    · rw [if_neg hn, if_neg hn, natDigitsRev_eq_digits n n (le_refl n)]
  have zero_case : ∀ n : Nat, n ≠ 0 →
      (((Nat.digits 10 n).map Nat.digitChar).reverse).asString ≠ "0" := by
    intro n hn h
    have hl : ((Nat.digits 10 n).map Nat.digitChar).reverse = ['0'] :=
      List.asString_inj.mp h
    have hrev : (Nat.digits 10 n).map Nat.digitChar = ['0'] := by
      have := congrArg List.reverse hl
      simpa using this
    obtain ⟨d, hd, hmap⟩ : ∃ d, Nat.digits 10 n = [d] ∧ Nat.digitChar d = '0' := by
      cases hdig : Nat.digits 10 n with
      | nil => rw [hdig] at hrev; exact absurd hrev (by simp)
      | cons d rest =>
        rw [hdig] at hrev
        cases rest with
        | nil => exact ⟨d, rfl, by simpa using hrev⟩
        | cons e rest' => simp at hrev
    have hdmem : d ∈ Nat.digits 10 n := by rw [hd]; exact List.mem_singleton.mpr rfl
    have hd10 : d < 10 := Nat.digits_lt_base (by norm_num) hdmem
    have hd0 : d = 0 := digitChar_inj hd10 (by norm_num) hmap
    have hofd := congrArg (Nat.ofDigits 10) hd
    rw [Nat.ofDigits_digits, Nat.ofDigits_singleton] at hofd
    rw [hd0] at hofd
    exact hn (by exact_mod_cast hofd)
  intro m n h
  rw [base m, base n] at h
  by_cases hm : m = 0 <;> by_cases hn : n = 0
  · omega
  · rw [if_pos hm, if_neg hn] at h; exact absurd h.symm (zero_case n hn)
  · rw [if_neg hm, if_pos hn] at h; exact absurd h (zero_case m hm)
  · rw [if_neg hm, if_neg hn] at h
    have hlists := List.reverse_injective (List.asString_inj.mp h)
    have hdig : Nat.digits 10 m = Nat.digits 10 n :=
      map_digitChar_inj _ _ (fun _ hx => Nat.digits_lt_base (by norm_num) hx)
        (fun _ hx => Nat.digits_lt_base (by norm_num) hx) hlists
    have := congrArg (Nat.ofDigits 10) hdig
    rwa [Nat.ofDigits_digits, Nat.ofDigits_digits] at this

/-! ### Filename derivation (`DownloadManager.extractFilename`)

The JS function receives a URL, takes the last nonempty segment of
`new URL(url).pathname`, appends `.mp4`/`.jpg` when the segment has no
extension, replaces the characters `<>:"/\|?*` with `_` and clamps the result
to 200 characters preserving the extension.  `new URL` and `Date.now()` are
platform primitives: the pathname extraction is modelled for plain
`scheme://host/path?query#frag` URLs (no percent-encoding, no backslashes —
the only shapes the scraper produces), and the current time is passed in as
the `now : Nat` argument used by the `catch`-branch fallback
`media_${Date.now()}.jpg`. -/

/-- Split a character list at the first occurrence of `sep`; `none` when the
(nonempty) separator does not occur. -/
def breakOnSeq (sep : List Char) : List Char → Option (List Char × List Char)
  | [] => none
  | c :: cs =>
    if sep.isPrefixOf (c :: cs) then some ([], (c :: cs).drop sep.length)
    else match breakOnSeq sep cs with
      | some (pre, post) => some (c :: pre, post)
      | none => none

/-- Substring test, modelling a JavaScript regex search for a literal
pattern. -/
def hasSeq (sep l : List Char) : Bool :=
  (breakOnSeq sep l).isSome

/-- `s.split(sep)` for a single-character separator. -/
def splitOnChar (sep : Char) : List Char → List (List Char)
  | [] => [[]]
  | c :: cs =>
    let r := splitOnChar sep cs
    if c = sep then [] :: r
    else match r with
      | h :: t => (c :: h) :: t
      | [] => [[c]]

/-- `l.endsWith suffix`. -/
def endsWithSeq (suffix l : List Char) : Bool :=
  suffix.reverse.isPrefixOf l.reverse

/-- The video extensions of the regex `\.(mp4|webm|mov|avi|mkv)(\?|$)`. -/
def videoExts : List (List Char) :=
  ["mp4", "webm", "mov", "avi", "mkv"].map String.data

/-- The extensions of the regex `\.(jpg|jpeg|png|webp|gif|mp4|webm|mov|avi|mkv)$`. -/
def mediaExts : List (List Char) :=
  ["jpg", "jpeg", "png", "webp", "gif", "mp4", "webm", "mov", "avi", "mkv"].map String.data

/-- `url.match(/\.(mp4|webm|mov|avi|mkv)(\?|$)/i)`: the url contains a dot, a
video extension and then either a `?` or the end of the string. -/
def isVideoUrl (url : List Char) : Bool :=
  let lower := url.map Char.toLower
  videoExts.any fun e =>
    endsWithSeq ('.' :: e) lower || hasSeq ('.' :: e ++ ['?']) lower

/-- `filename.match(/\.(jpg|jpeg|png|webp|gif|mp4|webm|mov|avi|mkv)$/i)`. -/
def hasMediaExt (f : List Char) : Bool :=
  mediaExts.any fun e => endsWithSeq ('.' :: e) (f.map Char.toLower)

/-- `new URL(url).pathname`, modelled for plain `scheme://host/path?query`
URLs: everything from the first `/` after the authority up to the first `?`
or `#`; parse failure (`new URL` throwing) is `none`. -/
def urlPathname (url : List Char) : Option (List Char) :=
  match breakOnSeq [':', '/', '/'] url with
  | some (_, rest) =>
    let path := (rest.dropWhile fun c => c != '/').takeWhile fun c => c != '?' && c != '#'
    some (if path.isEmpty then ['/'] else path)
  | none => none

/-- `pathname.split('/').filter(Boolean)` followed by taking the last
element. -/
def lastSegment (path : List Char) : Option (List Char) :=
  ((splitOnChar '/' path).filter fun s => !s.isEmpty).getLast?

/-- `filename.match(/\.[^.]+$/)?.[0]`: the suffix starting at the last dot,
provided the dot exists and is not the final character. -/
def dotExt (f : List Char) : Option (List Char) :=
  let after := f.reverse.takeWhile fun c => c != '.'
  if after.length = f.length || after.isEmpty then none
  else some ('.' :: after.reverse)

/-- `filename.replace(/[<>:"/\\|?*]/g, '_')`. -/
def sanitizeChars (f : List Char) : List Char :=
  f.map fun c => if c ∈ ['<', '>', ':', '"', '/', '\\', '|', '?', '*'] then '_' else c

/-- `s.slice(0, e)` for a possibly negative end index. -/
def jsSliceTo (l : List Char) (e : Int) : List Char :=
  if 0 ≤ e then l.take e.toNat else l.take (l.length - (-e).toNat)

/-- The length clamp of `extractFilename`: keep at most 200 characters,
re-attaching the extension (or the inferred default). -/
def clampFilename (isVideo : Bool) (f : List Char) : List Char :=
  if f.length > 200 then
    let ext := (dotExt f).getD (if isVideo then ".mp4".data else ".jpg".data)
    jsSliceTo f (200 - (ext.length : Int)) ++ ext
  else f

/-- The body of `DownloadManager.extractFilename` on character lists. -/
def extractFilenameCore (now : Nat) (url : List Char) : List Char :=
  match urlPathname url with
  | none => ("media_" ++ natStr now ++ ".jpg").data
  | some path =>
    match lastSegment path with
    | none => ("media_" ++ natStr now ++ ".jpg").data
    | some seg =>
      let isVideo := isVideoUrl url
      let f1 := if !hasMediaExt seg && !seg.contains '.'
        then seg ++ (if isVideo then ".mp4".data else ".jpg".data) else seg
      clampFilename isVideo (sanitizeChars f1)

/-- `DownloadManager.extractFilename(url)`; `now` stands for `Date.now()`
in the `catch`-branch fallback. -/
def extractFilename (now : Nat) (url : String) : String :=
  (extractFilenameCore now url.data).asString

example : extractFilename 0 "https://cdn.example/abc.jpg?w=200" = "abc.jpg" := by decide
example : extractFilename 0 "https://cdn.example/video.webm" = "video.webm" := by decide
example : extractFilename 0 "https://cdn.example/noext" = "noext.jpg" := by decide
example : extractFilename 0 "https://x.com/clip?f=.mp4" = "clip.mp4" := by decide
example : extractFilename 0 "https://x.com/a:b" = "a_b.jpg" := by decide
example : extractFilename 7 "nonsense" = "media_7.jpg" := by decide

/-- Modelled from the spec: the filename derivation as the specification
words it — "strip disallowed filesystem characters", i.e. the disallowed
characters are *removed* rather than replaced.  Used only to compare the
spec's wording against the code's behaviour. -/
def extractFilenameRemoving (now : Nat) (url : String) : String :=
  (match urlPathname url.data with
  | none => ("media_" ++ natStr now ++ ".jpg").data
  | some path =>
    match lastSegment path with
    | none => ("media_" ++ natStr now ++ ".jpg").data
    | some seg =>
      let isVideo := isVideoUrl url.data
      let f1 := if !hasMediaExt seg && !seg.contains '.'
        then seg ++ (if isVideo then ".mp4".data else ".jpg".data) else seg
      let f2 := f1.filter fun c => c ∉ ['<', '>', ':', '"', '/', '\\', '|', '?', '*']
      clampFilename isVideo f2).asString

example : extractFilenameRemoving 0 "https://x.com/a:b" = "ab.jpg" := by decide

/-! ### Data model (`DownloadManager` state)

Tokens: JavaScript item objects are mutable and shared between the
collections and the running `processItem` tasks.  Object identity is
modelled by a token (the index of the item in the append-only `store`); the
four collections and the task list hold tokens, and field mutation is an
update of `store`. -/

inductive ItemStatus
  | queued
  | downloading
  | completed
  | failed
  deriving DecidableEq, Repr, Inhabited

/-- One download item, as built by `addToQueue`.  `downloadId` is present
because `cancel()` reads it; no code path ever assigns it. -/
structure ItemData where
  id : String
  url : String
  filename : String
  subfolder : String
  retries : Nat
  status : ItemStatus
  error : Option String
  downloadId : Option Nat
  deriving DecidableEq, Repr, Inhabited

/-- The caller-supplied shape accepted by `addToQueue`; absent or falsy
fields are `none`. -/
structure RawItem where
  id : Option String
  url : String
  filename : Option String
  subfolder : Option String
  deriving DecidableEq, Repr, Inhabited

/-- The options object accepted by `init`. -/
structure Options where
  maxConcurrent : Option Nat
  downloadDelay : Option Nat
  retryAttempts : Option Nat
  basePath : Option String
  deriving DecidableEq, Repr, Inhabited

/-- Where a `processItem` task is suspended: awaiting the
`chrome.downloads.download` callback, awaiting `waitForDownload` of a
platform handle, or in the final `await sleep(downloadDelay)`. -/
inductive TaskPhase
  | awaitingStart
  | inFlight (handle : Nat)
  | sleeping
  deriving DecidableEq, Repr, Inhabited

structure TaskState where
  tok : Nat
  phase : TaskPhase
  deriving DecidableEq, Repr, Inhabited

/-- Where the driving loop of `start()` is suspended: not started, inside
the synchronous slot-fill loop, at `await sleep(50)`, at the pause poll's
`await sleep(100)`, or returned. -/
inductive DriverPhase
  | idle
  | filling
  | mainSleep
  | pauseWait
  | done
  deriving DecidableEq, Repr, Inhabited

/-- The whole manager state.  `everCancelled`, `aborted` and `errorCalls`
are ghost observation fields (see the file header). -/
structure DMState where
  queue : List Nat
  active : List Nat
  completed : List Nat
  failed : List Nat
  store : List ItemData
  maxConcurrent : Nat
  downloadDelay : Nat
  retryAttempts : Nat
  basePath : String
  isPaused : Bool
  isCancelled : Bool
  driver : DriverPhase
  tasks : List TaskState
  everCancelled : Bool
  aborted : List Nat
  errorCalls : List Nat
  deriving DecidableEq, Repr, Inhabited

/-- The item data behind a token. -/
def DMState.item (s : DMState) (tok : Nat) : ItemData :=
  s.store.getD tok default

/-! ### Operations -/

/-- JavaScript `x || d` for a numeric option: `undefined` and `0` are falsy. -/
def orDefaultNat (v : Option Nat) (d : Nat) : Nat :=
  match v with
  | none => d
  | some n => if n = 0 then d else n

/-- JavaScript `x || d` for a string option: `undefined` and `""` are falsy. -/
def orDefaultStr (v : Option String) (d : String) : String :=
  match v with
  | none => d
  | some s => if s.isEmpty then d else s

/-- `DownloadManager.init(options)`: coalesce the configuration with the
defaults and reset all collections and flags. -/
def DMState.init (opts : Options) : DMState where
  queue := []
  active := []
  completed := []
  failed := []
  store := []
  maxConcurrent := orDefaultNat opts.maxConcurrent 3
  downloadDelay := orDefaultNat opts.downloadDelay 200
  retryAttempts := orDefaultNat opts.retryAttempts 3
  basePath := orDefaultStr opts.basePath "Civitai"
  isPaused := false
  isCancelled := false
  driver := .idle
  tasks := []
  everCancelled := false
  aborted := []
  errorCalls := []

/-- The normalization `items.map((item, index) => ({...}))` of `addToQueue`;
`idx` is the running map index, `now` models `Date.now()` during the call. -/
def normalizeItems (now : Nat) : List RawItem → Nat → List ItemData
  | [], _ => []
  | r :: rs, idx =>
    { id := orDefaultStr r.id ("item_" ++ natStr now ++ "_" ++ natStr idx)
      url := r.url
      filename := orDefaultStr r.filename (extractFilename now r.url)
      subfolder := orDefaultStr r.subfolder ""
      retries := 0
      status := .queued
      error := none
      downloadId := none } :: normalizeItems now rs (idx + 1)

/-- `DownloadManager.addToQueue(items)`: normalize the raw items and append
them to the queued collection (progress is emitted at the resulting state). -/
def addToQueueAct (raws : List RawItem) (now : Nat) (s : DMState) : DMState :=
  { s with
    store := s.store ++ normalizeItems now raws 0
    queue := s.queue ++ List.range' s.store.length raws.length }

/-- `DownloadManager.start()` up to its first suspension point: with nothing
queued and nothing active it completes immediately, otherwise it resets the
run flags and enters the slot-fill loop. -/
def startAct (s : DMState) : DMState :=
  if s.queue.isEmpty && s.active.isEmpty then { s with driver := .done }
  else { s with isCancelled := false, isPaused := false, driver := .filling }

/-- One iteration of the slot-fill loop of `start()` (running synchronously
with the prefix of `processItem` up to its first `await`): shift the queue
head into the active set, mark it `downloading`, initiate the platform
download.  When the loop guard fails, fall through to `await sleep(50)`. -/
def fillStepAct (s : DMState) : DMState :=
  match s.queue with
  | tok :: rest =>
    if s.active.length < s.maxConcurrent then
      { s with
        queue := rest
        active := s.active ++ [tok]
        store := s.store.set tok { s.item tok with status := .downloading }
        tasks := s.tasks ++ [⟨tok, .awaitingStart⟩] }
    else { s with driver := .mainSleep }
  | [] => { s with driver := .mainSleep }

/-- The driving loop waking from `await sleep(50)`: re-evaluate the loop
condition, then the pause check, then refill. -/
def wakeMainAct (s : DMState) : DMState :=
  if s.isCancelled then { s with driver := .done }
  else if s.queue.isEmpty && s.active.isEmpty then { s with driver := .done }
  else if s.isPaused then { s with driver := .pauseWait }
  else { s with driver := .filling }

/-- The pause poll waking from `await sleep(100)`. -/
def wakePauseAct (s : DMState) : DMState :=
  if s.isPaused && !s.isCancelled then { s with driver := .pauseWait }
  else if s.isCancelled then { s with driver := .done }
  else { s with driver := .filling }

/-- `DownloadManager.pause()`. -/
def pauseAct (s : DMState) : DMState :=
  { s with isPaused := true }

/-- `DownloadManager.resume()`. -/
def resumeAct (s : DMState) : DMState :=
  { s with isPaused := false }

/-- `DownloadManager.cancel()`: set the flags, invoke the platform abort for
every active item that carries a `downloadId`, then clear the queued and
active collections. -/
def cancelAct (s : DMState) : DMState :=
  { s with
    isCancelled := true
    isPaused := false
    everCancelled := true
    aborted := s.aborted ++ (s.active.filterMap fun tok => (s.item tok).downloadId)
    queue := []
    active := [] }

/-- The `finally` clause of `processItem`: look up the item's index in the
active set by id (`findIndex(i => i.id === item.id)`) and splice it out. -/
def spliceActive (tok : Nat) (s : DMState) : DMState :=
  { s with active := s.active.eraseP fun t => (s.item t).id == (s.item tok).id }

/-- The success path of `processItem`: mark completed, push onto the
completed collection, then the `finally` splice. -/
def successBody (tok : Nat) (s : DMState) : DMState :=
  spliceActive tok
    { s with
      store := s.store.set tok { s.item tok with status := .completed }
      completed := s.completed ++ [tok] }

/-- The catch path of `processItem`: requeue to the *front* while retries
remain, otherwise record the permanent failure and invoke `onError`; then
the `finally` splice. -/
def failBody (tok : Nat) (s : DMState) : DMState :=
  spliceActive tok
    (if (s.item tok).retries < s.retryAttempts then
      { s with
        store := s.store.set tok
          { s.item tok with retries := (s.item tok).retries + 1, status := .queued }
        queue := tok :: s.queue }
    else
      { s with
        store := s.store.set tok
          { s.item tok with status := .failed, error := some "download failed" }
        failed := s.failed ++ [tok]
        errorCalls := s.errorCalls ++ [tok] })

/-- The platform accepts the download: `downloadFile` resolves with a
(truthy) handle and the task suspends in `waitForDownload`. -/
def startOkAct (i tok handle : Nat) (s : DMState) : DMState :=
  { s with tasks := s.tasks.set i ⟨tok, .inFlight handle⟩ }

/-- A task settles successfully: run the success path, then suspend in the
`finally` delay. -/
def settleOkAct (i tok : Nat) (s : DMState) : DMState :=
  { successBody tok s with tasks := s.tasks.set i ⟨tok, .sleeping⟩ }

/-- A task settles with a failure (rejected `downloadFile` or interrupted
download): run the catch path, then suspend in the `finally` delay. -/
def settleFailAct (i tok : Nat) (s : DMState) : DMState :=
  { failBody tok s with tasks := s.tasks.set i ⟨tok, .sleeping⟩ }

/-- The `finally` delay elapses and the `processItem` task returns. -/
def sleepDoneAct (i : Nat) (s : DMState) : DMState :=
  { s with tasks := s.tasks.eraseIdx i }

/-- The snapshot returned by `getProgress()`. -/
structure Progress where
  total : Nat
  queued : Nat
  downloading : Nat
  completed : Nat
  failed : Nat
  failedItems : List String
  isPaused : Bool
  isCancelled : Bool
  deriving DecidableEq, Repr

/-- `DownloadManager.getProgress()`. -/
def DMState.getProgress (s : DMState) : Progress where
  total := s.queue.length + s.active.length + s.completed.length + s.failed.length
  queued := s.queue.length
  downloading := s.active.length
  completed := s.completed.length
  failed := s.failed.length
  failedItems := s.failed.map fun tok => (s.item tok).filename
  isPaused := s.isPaused
  isCancelled := s.isCancelled

inductive RunStatus
  | cancelled
  | paused
  | idle
  | downloading
  deriving DecidableEq, Repr

/-- `DownloadManager.getStatus()`. -/
def DMState.getStatus (s : DMState) : RunStatus :=
  if s.isCancelled then .cancelled
  else if s.isPaused then .paused
  else if s.queue.isEmpty && s.active.isEmpty then .idle
  else .downloading

/-! ### The event-loop small-step relation

Non-driver steps carry the guard `driver ≠ filling`: the slot-fill loop is a
synchronous stretch of JavaScript, so no callback or control call can run
inside it.  All other interleavings of the cooperative scheduler are
permitted.  A run is one `init` (the initial state), with `addToQueue`,
`start` (once, from idle — the spec declares re-entrant `start` undefined
behaviour), `pause`, `resume` and `cancel` arriving at any suspension point,
and the platform callbacks resolving in any order. -/

inductive Step : DMState → DMState → Prop
  | enqueue (raws : List RawItem) (now : Nat) {s : DMState}
      (hd : s.driver ≠ .filling) : Step s (addToQueueAct raws now s)
  | startCall {s : DMState} (hd : s.driver = .idle) : Step s (startAct s)
  | fill {s : DMState} (hd : s.driver = .filling) : Step s (fillStepAct s)
  | wakeMain {s : DMState} (hd : s.driver = .mainSleep) : Step s (wakeMainAct s)
  | wakePause {s : DMState} (hd : s.driver = .pauseWait) : Step s (wakePauseAct s)
  | pauseCall {s : DMState} (hd : s.driver ≠ .filling) : Step s (pauseAct s)
  | resumeCall {s : DMState} (hd : s.driver ≠ .filling) : Step s (resumeAct s)
  | cancelCall {s : DMState} (hd : s.driver ≠ .filling) : Step s (cancelAct s)
  | startOk {s : DMState} (i tok handle : Nat) (hd : s.driver ≠ .filling)
      (hh : 0 < handle) (hg : s.tasks[i]? = some ⟨tok, .awaitingStart⟩) :
      Step s (startOkAct i tok handle s)
  | startFail {s : DMState} (i tok : Nat) (hd : s.driver ≠ .filling)
      (hg : s.tasks[i]? = some ⟨tok, .awaitingStart⟩) :
      Step s (settleFailAct i tok s)
  | complete {s : DMState} (i tok handle : Nat) (hd : s.driver ≠ .filling)
      (hg : s.tasks[i]? = some ⟨tok, .inFlight handle⟩) :
      Step s (settleOkAct i tok s)
  | interrupted {s : DMState} (i tok handle : Nat) (hd : s.driver ≠ .filling)
      (hg : s.tasks[i]? = some ⟨tok, .inFlight handle⟩) :
      Step s (settleFailAct i tok s)
  | sleepDone {s : DMState} (i tok : Nat) (hd : s.driver ≠ .filling)
      (hg : s.tasks[i]? = some ⟨tok, .sleeping⟩) :
      Step s (sleepDoneAct i s)

/-- The states one run of the manager can reach from `init opts`. -/
inductive Reach (opts : Options) : DMState → Prop
  | refl : Reach opts (DMState.init opts)
  | tail {s s' : DMState} : Reach opts s → Step s s' → Reach opts s'

/-! ### Generic list lemmas used by the invariants -/

theorem mem_of_getElemEq {α : Type _} {l : List α} {i : Nat} {a : α}
    (h : l[i]? = some a) : a ∈ l := by
  obtain ⟨hi, rfl⟩ := List.getElem?_eq_some.mp h
  exact List.getElem_mem hi

theorem countP_set_getElemEq {α : Type _} (p : α → Bool) :
    ∀ (l : List α) (i : Nat) (t0 a : α), l[i]? = some t0 →
    (l.set i a).countP p + (if p t0 then 1 else 0) = l.countP p + (if p a then 1 else 0)
  | [], i, t0, a, h => by simp at h
  | x :: xs, 0, t0, a, h => by
    simp only [List.getElem?_cons_zero, Option.some.injEq] at h
    subst h
    simp only [List.set_cons_zero, List.countP_cons]
    omega
  | x :: xs, i + 1, t0, a, h => by
    simp only [List.getElem?_cons_succ] at h
    have ih := countP_set_getElemEq p xs i t0 a h
    simp only [List.set_cons_succ, List.countP_cons]
    omega

theorem countP_eraseIdx_getElemEq {α : Type _} (p : α → Bool) :
    ∀ (l : List α) (i : Nat) (t0 : α), l[i]? = some t0 →
    (l.eraseIdx i).countP p + (if p t0 then 1 else 0) = l.countP p
  | [], i, t0, h => by simp at h
  | x :: xs, 0, t0, h => by
    simp only [List.getElem?_cons_zero, Option.some.injEq] at h
    subst h
    simp only [List.eraseIdx_cons_zero, List.countP_cons]
  | x :: xs, i + 1, t0, h => by
    simp only [List.getElem?_cons_succ] at h
    have ih := countP_eraseIdx_getElemEq p xs i t0 h
    simp only [List.eraseIdx_cons_succ, List.countP_cons]
    omega

/-- Facts about erasing the first element matched by a predicate that, on
the members of the list, characterizes exactly the element `a`. -/
theorem eraseP_count_facts {α : Type _} [DecidableEq α] (p : α → Bool) (a : α) :
    ∀ (l : List α), (∀ x ∈ l, (p x = true ↔ x = a)) → a ∈ l →
      (l.eraseP p).count a + 1 = l.count a ∧
      (∀ b, b ≠ a → (l.eraseP p).count b = l.count b) ∧
      (l.eraseP p).length + 1 = l.length
  | [], _, ha => absurd ha (List.not_mem_nil a)
  | x :: xs, hiff, ha => by
    by_cases hx : x = a
    · subst hx
      have hp : p x = true := (hiff x (by simp)).mpr rfl
      refine ⟨?_, ?_, ?_⟩ <;> simp [List.eraseP_cons, hp, List.count_cons]
      intro b hb
      simp [Ne.symm hb]
    · have hp : p x = false := by
        have : ¬p x = true := fun h => hx ((hiff x (by simp)).mp h)
        exact Bool.eq_false_iff.mpr this
      have hmem : a ∈ xs := by
        rcases List.mem_cons.mp ha with h | h
        · exact absurd h.symm hx
        · exact h
      obtain ⟨h1, h2, h3⟩ := eraseP_count_facts p a xs
        (fun y hy => hiff y (List.mem_cons_of_mem x hy)) hmem
      refine ⟨?_, ?_, ?_⟩ <;> simp [List.eraseP_cons, hp, List.count_cons]
      · omega
      · intro b hb
        have := h2 b hb
        omega
      · omega

theorem set_getElem_self {α : Type _} : ∀ (l : List α) (i : Nat) (h : i < l.length),
    l.set i l[i] = l
  | [], i, h => by simp at h
  | _ :: _, 0, _ => rfl
  | x :: xs, i + 1, h => by
    simp only [List.getElem_cons_succ, List.set_cons_succ, List.cons.injEq, true_and]
    exact set_getElem_self xs i (by simpa using h)

/-! ### Invariant quantities -/

/-- A task is pending while it has not yet reached the `finally` delay: it
will still mutate the collections when it settles. -/
def TaskState.pending (t : TaskState) : Bool :=
  !(t.phase == .sleeping)

/-- Number of pending `processItem` tasks holding a given token. -/
def pendingCount (s : DMState) (tok : Nat) : Nat :=
  s.tasks.countP fun t => t.pending && t.tok == tok

/-- A token's occurrences in the queue, the pending tasks and the terminal
collections: the "at most one live occurrence" measure. -/
def occCount (s : DMState) (tok : Nat) : Nat :=
  s.queue.count tok + pendingCount s tok + s.completed.count tok + s.failed.count tok

/-- A token's occurrences across the four item collections. -/
def cntAll (s : DMState) (tok : Nat) : Nat :=
  s.queue.count tok + s.active.count tok + s.completed.count tok + s.failed.count tok

/-- Pairwise-distinct item ids in the store. -/
def IdsDistinct (s : DMState) : Prop :=
  (s.store.map ItemData.id).Nodup

/-! ### Facts about the individual actions -/

theorem normalizeItems_length (now : Nat) : ∀ (raws : List RawItem) (idx : Nat),
    (normalizeItems now raws idx).length = raws.length
  | [], _ => rfl
  | r :: rs, idx => by
    simp [normalizeItems, normalizeItems_length now rs (idx + 1)]

theorem normalizeItems_fields (now : Nat) : ∀ (raws : List RawItem) (idx : Nat),
    ∀ it ∈ normalizeItems now raws idx,
      it.retries = 0 ∧ it.downloadId = none ∧ it.status = .queued
  | [], _, it, h => absurd h (List.not_mem_nil it)
  | r :: rs, idx, it, h => by
    rcases List.mem_cons.mp h with h | h
    · subst h; exact ⟨rfl, rfl, rfl⟩
    · exact normalizeItems_fields now rs (idx + 1) it h

theorem fillStepAct_cases (s : DMState) :
    (∃ tok rest, s.queue = tok :: rest ∧ s.active.length < s.maxConcurrent ∧
      fillStepAct s = { s with
        queue := rest
        active := s.active ++ [tok]
        store := s.store.set tok { s.item tok with status := .downloading }
        tasks := s.tasks ++ [⟨tok, .awaitingStart⟩] }) ∨
    fillStepAct s = { s with driver := .mainSleep } := by
  unfold fillStepAct
  cases hq : s.queue with
  | nil => right; rfl
  | cons tok rest =>
    by_cases hlt : s.active.length < s.maxConcurrent
    · left
      refine ⟨tok, rest, rfl, hlt, ?_⟩
      simp only [if_pos hlt]
    · right
      simp only [if_neg hlt]

theorem failBody_cases (tok : Nat) (s : DMState) :
    ((s.item tok).retries < s.retryAttempts ∧
      failBody tok s = spliceActive tok { s with
        store := s.store.set tok
          { s.item tok with retries := (s.item tok).retries + 1, status := .queued }
        queue := tok :: s.queue }) ∨
    (¬(s.item tok).retries < s.retryAttempts ∧
      failBody tok s = spliceActive tok { s with
        store := s.store.set tok
          { s.item tok with status := .failed, error := some "download failed" }
        failed := s.failed ++ [tok]
        errorCalls := s.errorCalls ++ [tok] }) := by
  unfold failBody
  by_cases h : (s.item tok).retries < s.retryAttempts
  · left; exact ⟨h, by rw [if_pos h]⟩
  · right; exact ⟨h, by rw [if_neg h]⟩

/-- Store updates of the manager never change an item's id, so the id map of
the store is unchanged. -/
theorem map_id_set (s : DMState) (tok : Nat) (it' : ItemData)
    (hid : it'.id = (s.item tok).id) :
    (s.store.set tok it').map ItemData.id = s.store.map ItemData.id := by
  by_cases h : tok < s.store.length
  · rw [List.map_set]
    have hgetd : s.item tok = s.store[tok] := by
      simp [DMState.item, List.getD_eq_getElem?_getD, List.getElem?_eq_getElem h]
    have hlen2 : tok < (s.store.map ItemData.id).length := by simpa using h
    have hval : it'.id = (s.store.map ItemData.id)[tok] := by
      rw [hid, hgetd, List.getElem_map]
    rw [hval, set_getElem_self]
  · rw [List.set_eq_of_length_le (by omega)]

/-! ### Frame lemmas: what a step never changes -/

theorem successBody_store (tok : Nat) (s : DMState) :
    (successBody tok s).store = s.store.set tok { s.item tok with status := .completed } := rfl

theorem failBody_store (tok : Nat) (s : DMState) :
    ∃ it', it'.id = (s.item tok).id ∧ (failBody tok s).store = s.store.set tok it' := by
  rcases failBody_cases tok s with ⟨_, heq⟩ | ⟨_, heq⟩
  · refine ⟨{ s.item tok with retries := (s.item tok).retries + 1, status := .queued }, rfl, ?_⟩
    rw [heq]; rfl
  · refine ⟨{ s.item tok with status := .failed, error := some "download failed" }, rfl, ?_⟩
    rw [heq]; rfl

theorem Step.config_eq {s s' : DMState} (h : Step s s') :
    s'.maxConcurrent = s.maxConcurrent ∧ s'.downloadDelay = s.downloadDelay ∧
    s'.retryAttempts = s.retryAttempts ∧ s'.basePath = s.basePath := by
  cases h <;>
    simp only [addToQueueAct, startAct, fillStepAct, wakeMainAct, wakePauseAct, pauseAct,
      resumeAct, cancelAct, startOkAct, settleOkAct, settleFailAct, sleepDoneAct,
      successBody, failBody, spliceActive] <;>
    (repeat' split) <;>
    simp

theorem Step.storeLen_le {s s' : DMState} (h : Step s s') :
    s.store.length ≤ s'.store.length := by
  cases h <;>
    simp only [addToQueueAct, startAct, fillStepAct, wakeMainAct, wakePauseAct, pauseAct,
      resumeAct, cancelAct, startOkAct, settleOkAct, settleFailAct, sleepDoneAct,
      successBody, failBody, spliceActive] <;>
    (repeat' split) <;>
    simp [List.length_set]

theorem Step.ever_or {s s' : DMState} (h : Step s s') :
    s'.everCancelled = s.everCancelled ∨ s'.everCancelled = true := by
  cases h <;>
    simp only [addToQueueAct, startAct, fillStepAct, wakeMainAct, wakePauseAct, pauseAct,
      resumeAct, cancelAct, startOkAct, settleOkAct, settleFailAct, sleepDoneAct,
      successBody, failBody, spliceActive] <;>
    (repeat' split) <;>
    simp

theorem Step.ids_sublist {s s' : DMState} (h : Step s s') :
    (s.store.map ItemData.id).Sublist (s'.store.map ItemData.id) := by
  cases h with
  | enqueue raws now hd =>
    simp only [addToQueueAct, List.map_append]
    exact List.sublist_append_left _ _
  | startCall hd =>
    unfold startAct; split_ifs <;> exact List.Sublist.refl _
  | fill hd =>
    rcases fillStepAct_cases s with ⟨tok, rest, hq, hlt, heq⟩ | heq <;> rw [heq]
    · show (s.store.map ItemData.id).Sublist
        ((s.store.set tok { s.item tok with status := .downloading }).map ItemData.id)
      rw [map_id_set s tok { s.item tok with status := .downloading } rfl]
  | wakeMain hd =>
    unfold wakeMainAct; split_ifs <;> exact List.Sublist.refl _
  | wakePause hd =>
    unfold wakePauseAct; split_ifs <;> exact List.Sublist.refl _
  | pauseCall hd => exact List.Sublist.refl _
  | resumeCall hd => exact List.Sublist.refl _
  | cancelCall hd => exact List.Sublist.refl _
  | startOk i tok handle hd hh hg => exact List.Sublist.refl _
  | startFail i tok hd hg =>
    obtain ⟨it', hid, hst⟩ := failBody_store tok s
    have hmap : (settleFailAct i tok s).store.map ItemData.id = s.store.map ItemData.id := by
      rw [show (settleFailAct i tok s).store = (failBody tok s).store from rfl, hst,
        map_id_set s tok it' hid]
    rw [hmap]
  | complete i tok handle hd hg =>
    have hmap : (settleOkAct i tok s).store.map ItemData.id = s.store.map ItemData.id := by
      rw [show (settleOkAct i tok s).store = (successBody tok s).store from rfl,
        successBody_store, map_id_set s tok { s.item tok with status := .completed } rfl]
    rw [hmap]
  | interrupted i tok handle hd hg =>
    obtain ⟨it', hid, hst⟩ := failBody_store tok s
    have hmap : (settleFailAct i tok s).store.map ItemData.id = s.store.map ItemData.id := by
      rw [show (settleFailAct i tok s).store = (failBody tok s).store from rfl, hst,
        map_id_set s tok it' hid]
    rw [hmap]
  | sleepDone i tok hd hg => exact List.Sublist.refl _

theorem Step.failed_count_mono {s s' : DMState} (h : Step s s') (tok : Nat) :
    s.failed.count tok ≤ s'.failed.count tok := by
  cases h <;>
    simp only [addToQueueAct, startAct, fillStepAct, wakeMainAct, wakePauseAct, pauseAct,
      resumeAct, cancelAct, startOkAct, settleOkAct, settleFailAct, sleepDoneAct,
      successBody, failBody, spliceActive] <;>
    (repeat' split) <;>
    simp [List.count_append]

/-! ### The master invariant -/

/-- Invariants holding in every reachable state with no side conditions:
collection and task tokens are valid store indices; every token has at most
one live occurrence (queue, pending task, completed, failed); retry counters
never exceed the configured limit; no item ever carries a `downloadId`. -/
structure MasterInv (s : DMState) : Prop where
  queue_lt : ∀ tok ∈ s.queue, tok < s.store.length
  active_lt : ∀ tok ∈ s.active, tok < s.store.length
  completed_lt : ∀ tok ∈ s.completed, tok < s.store.length
  failed_lt : ∀ tok ∈ s.failed, tok < s.store.length
  tasks_lt : ∀ t ∈ s.tasks, t.tok < s.store.length
  occ_le_one : ∀ tok, occCount s tok ≤ 1
  retries_le : ∀ it ∈ s.store, it.retries ≤ s.retryAttempts
  dlid_none : ∀ it ∈ s.store, it.downloadId = none

theorem item_mem_or_default (s : DMState) (tok : Nat) :
    s.item tok ∈ s.store ∨ s.item tok = default := by
  unfold DMState.item
  by_cases h : tok < s.store.length
  · left
    rw [List.getD_eq_getElem?_getD, List.getElem?_eq_getElem h]
    exact List.getElem_mem h
  · right
    rw [List.getD_eq_getElem?_getD]
    have : s.store[tok]? = none := by
      rw [List.getElem?_eq_none_iff]
      omega
    rw [this]
    rfl

theorem MasterInv.item_retries {s : DMState} (hInv : MasterInv s) (tok : Nat) :
    (s.item tok).retries ≤ s.retryAttempts := by
  rcases item_mem_or_default s tok with h | h
  · exact hInv.retries_le _ h
  · rw [h]; exact Nat.zero_le _

theorem MasterInv.item_dlid {s : DMState} (hInv : MasterInv s) (tok : Nat) :
    (s.item tok).downloadId = none := by
  rcases item_mem_or_default s tok with h | h
  · exact hInv.dlid_none _ h
  · rw [h]; rfl

theorem masterInv_frame {s t : DMState} (hInv : MasterInv s)
    (hq : t.queue = s.queue) (ha : t.active = s.active) (hc : t.completed = s.completed)
    (hf : t.failed = s.failed) (hs : t.store = s.store) (ht : t.tasks = s.tasks)
    (hr : t.retryAttempts = s.retryAttempts) : MasterInv t := by
  constructor
  · rw [hq, hs]; exact hInv.queue_lt
  · rw [ha, hs]; exact hInv.active_lt
  · rw [hc, hs]; exact hInv.completed_lt
  · rw [hf, hs]; exact hInv.failed_lt
  · rw [ht, hs]; exact hInv.tasks_lt
  · intro tok
    unfold occCount pendingCount
    rw [hq, ht, hc, hf]
    exact hInv.occ_le_one tok
  · rw [hs, hr]; exact hInv.retries_le
  · rw [hs]; exact hInv.dlid_none

theorem masterInv_init (opts : Options) : MasterInv (DMState.init opts) := by
  constructor <;> simp [DMState.init, occCount, pendingCount]

theorem count_cons_nat (a b : Nat) (l : List Nat) :
    (b :: l).count a = l.count a + if b = a then 1 else 0 := by
  simp [List.count_cons]

theorem count_append_single (a b : Nat) (l : List Nat) :
    (l ++ [b]).count a = l.count a + if b = a then 1 else 0 := by
  simp [List.count_append, List.count_cons]

/-- `pendingCount` as a function of the task list. -/
def pcountL (x : Nat) (ts : List TaskState) : Nat :=
  ts.countP fun t => t.pending && t.tok == x

theorem pendingCount_eq (s : DMState) (x : Nat) : pendingCount s x = pcountL x s.tasks := rfl

theorem occCount_eq (s : DMState) (x : Nat) :
    occCount s x = s.queue.count x + pcountL x s.tasks +
      s.completed.count x + s.failed.count x := rfl

theorem pcountL_append (x : Nat) (ts1 ts2 : List TaskState) :
    pcountL x (ts1 ++ ts2) = pcountL x ts1 + pcountL x ts2 :=
  List.countP_append _ _ _

theorem pcountL_single (x : Nat) (t : TaskState) :
    pcountL x [t] = if t.pending && t.tok == x then 1 else 0 := by
  simp [pcountL, List.countP_cons]

theorem pending_awaiting (tok : Nat) : TaskState.pending ⟨tok, .awaitingStart⟩ = true := rfl

theorem pending_inflight (tok h : Nat) : TaskState.pending ⟨tok, .inFlight h⟩ = true := rfl

theorem pending_sleeping (tok : Nat) : TaskState.pending ⟨tok, .sleeping⟩ = false := rfl

theorem masterInv_enqueue (raws : List RawItem) (now : Nat) {s : DMState}
    (hInv : MasterInv s) : MasterInv (addToQueueAct raws now s) := by
  have hlen : (addToQueueAct raws now s).store.length = s.store.length + raws.length := by
    simp [addToQueueAct, normalizeItems_length]
  have hq : (addToQueueAct raws now s).queue
      = s.queue ++ List.range' s.store.length raws.length := rfl
  have hst : (addToQueueAct raws now s).store = s.store ++ normalizeItems now raws 0 := rfl
  constructor
  · intro tok htok
    rw [hq] at htok
    rw [hlen]
    rcases List.mem_append.mp htok with h | h
    · have := hInv.queue_lt tok h; omega
    · have := List.mem_range'_1.mp h; omega
  · intro tok htok
    rw [hlen]; have := hInv.active_lt tok htok; omega
  · intro tok htok
    rw [hlen]; have := hInv.completed_lt tok htok; omega
  · intro tok htok
    rw [hlen]; have := hInv.failed_lt tok htok; omega
  · intro t ht
    rw [hlen]; have := hInv.tasks_lt t ht; omega
  · intro x
    show (s.queue ++ List.range' s.store.length raws.length).count x + pcountL x s.tasks +
      s.completed.count x + s.failed.count x ≤ 1
    rw [List.count_append]
    have hocc := hInv.occ_le_one x
    rw [occCount_eq] at hocc
    by_cases hcase : x < s.store.length
    · have hr0 : (List.range' s.store.length raws.length).count x = 0 := by
        rw [List.count_eq_zero]
        intro hmem
        have := List.mem_range'_1.mp hmem
        omega
      omega
    · have hq0 : s.queue.count x = 0 := by
        rw [List.count_eq_zero]; intro hmem; have := hInv.queue_lt x hmem; omega
      have hc0 : s.completed.count x = 0 := by
        rw [List.count_eq_zero]; intro hmem; have := hInv.completed_lt x hmem; omega
      have hf0 : s.failed.count x = 0 := by
        rw [List.count_eq_zero]; intro hmem; have := hInv.failed_lt x hmem; omega
      have hp0 : pcountL x s.tasks = 0 := by
        unfold pcountL
        rw [List.countP_eq_zero]
        intro t ht
        have hlt := hInv.tasks_lt t ht
        simp only [Bool.and_eq_true, beq_iff_eq, not_and]
        intro _ habs
        omega
      have hr1 : (List.range' s.store.length raws.length).count x ≤ 1 :=
        List.nodup_iff_count_le_one.mp (List.nodup_range' _ _) x
      omega
  · intro it hit
    rw [hst] at hit
    rcases List.mem_append.mp hit with h | h
    · exact hInv.retries_le it h
    · have h0 := (normalizeItems_fields now raws 0 it h).1
      show it.retries ≤ s.retryAttempts
      omega
  · intro it hit
    rw [hst] at hit
    rcases List.mem_append.mp hit with h | h
    · exact hInv.dlid_none it h
    · exact (normalizeItems_fields now raws 0 it h).2.1

theorem masterInv_fill {s : DMState} (hInv : MasterInv s) {tok : Nat} {rest : List Nat}
    (hq : s.queue = tok :: rest) (hlt : s.active.length < s.maxConcurrent) :
    MasterInv { s with
      queue := rest
      active := s.active ++ [tok]
      store := s.store.set tok { s.item tok with status := .downloading }
      tasks := s.tasks ++ [⟨tok, .awaitingStart⟩] } := by
  have htokq : tok ∈ s.queue := by rw [hq]; exact List.mem_cons_self tok rest
  have htoklt : tok < s.store.length := hInv.queue_lt tok htokq
  have hrest : ∀ x ∈ rest, x ∈ s.queue := by
    rw [hq]; intro x hx; exact List.mem_cons_of_mem tok hx
  constructor
  · intro x hx
    rw [List.length_set]; exact hInv.queue_lt x (hrest x hx)
  · intro x hx
    rw [List.length_set]
    rcases List.mem_append.mp hx with h | h
    · exact hInv.active_lt x h
    · rw [List.mem_singleton.mp h]; exact htoklt
  · intro x hx
    rw [List.length_set]; exact hInv.completed_lt x hx
  · intro x hx
    rw [List.length_set]; exact hInv.failed_lt x hx
  · intro t ht
    rw [List.length_set]
    rcases List.mem_append.mp ht with h | h
    · exact hInv.tasks_lt t h
    · rw [List.mem_singleton.mp h]; exact htoklt
  · intro x
    show rest.count x + pcountL x (s.tasks ++ [⟨tok, .awaitingStart⟩]) +
      s.completed.count x + s.failed.count x ≤ 1
    rw [pcountL_append, pcountL_single]
    have hocc := hInv.occ_le_one x
    rw [occCount_eq, hq, count_cons_nat] at hocc
    simp only [pending_awaiting, Bool.true_and, beq_iff_eq]
    omega
  · intro it hit
    rcases List.mem_or_eq_of_mem_set hit with h | h
    · exact hInv.retries_le it h
    · subst h
      show (s.item tok).retries ≤ s.retryAttempts
      exact hInv.item_retries tok
  · intro it hit
    rcases List.mem_or_eq_of_mem_set hit with h | h
    · exact hInv.dlid_none it h
    · subst h
      show (s.item tok).downloadId = none
      exact hInv.item_dlid tok

theorem masterInv_settleOk {s : DMState} (hInv : MasterInv s) {i tok : Nat} {t0 : TaskState}
    (hg : s.tasks[i]? = some t0) (ht0 : t0.pending = true) (htok : t0.tok = tok) :
    MasterInv (settleOkAct i tok s) := by
  have htmem := mem_of_getElemEq hg
  have htoklt : tok < s.store.length := htok ▸ hInv.tasks_lt t0 htmem
  have hsq : (settleOkAct i tok s).queue = s.queue := rfl
  have hst : (settleOkAct i tok s).store
      = s.store.set tok { s.item tok with status := .completed } := rfl
  have hcm : (settleOkAct i tok s).completed = s.completed ++ [tok] := rfl
  have hfl : (settleOkAct i tok s).failed = s.failed := rfl
  have hts : (settleOkAct i tok s).tasks = s.tasks.set i ⟨tok, .sleeping⟩ := rfl
  have hsa : ∀ x ∈ (settleOkAct i tok s).active, x ∈ s.active := fun x hx =>
    (List.eraseP_sublist s.active).subset hx
  constructor
  · intro x hx
    rw [hst, List.length_set]
    exact hInv.queue_lt x (hsq ▸ hx)
  · intro x hx
    rw [hst, List.length_set]
    exact hInv.active_lt x (hsa x hx)
  · intro x hx
    rw [hst, List.length_set]
    rw [hcm] at hx
    rcases List.mem_append.mp hx with h | h
    · exact hInv.completed_lt x h
    · rw [List.mem_singleton.mp h]; exact htoklt
  · intro x hx
    rw [hst, List.length_set]
    exact hInv.failed_lt x (hfl ▸ hx)
  · intro t ht
    rw [hst, List.length_set]
    rw [hts] at ht
    rcases List.mem_or_eq_of_mem_set ht with h | h
    · exact hInv.tasks_lt t h
    · rw [h]; exact htoklt
  · intro x
    rw [occCount_eq, hsq, hcm, hfl, hts, count_append_single]
    have hset := countP_set_getElemEq (fun t => t.pending && t.tok == x) s.tasks i t0
      ⟨tok, .sleeping⟩ hg
    simp only [ht0, htok, pending_sleeping, Bool.true_and, Bool.false_and, beq_iff_eq,
      Bool.false_eq_true, if_false] at hset
    have hocc := hInv.occ_le_one x
    rw [occCount_eq] at hocc
    simp only [pcountL] at hocc ⊢
    omega
  · intro it hit
    rw [hst] at hit
    rcases List.mem_or_eq_of_mem_set hit with h | h
    · exact hInv.retries_le it h
    · subst h
      show (s.item tok).retries ≤ s.retryAttempts
      exact hInv.item_retries tok
  · intro it hit
    rw [hst] at hit
    rcases List.mem_or_eq_of_mem_set hit with h | h
    · exact hInv.dlid_none it h
    · subst h
      show (s.item tok).downloadId = none
      exact hInv.item_dlid tok

theorem masterInv_settleFail {s : DMState} (hInv : MasterInv s) {i tok : Nat} {t0 : TaskState}
    (hg : s.tasks[i]? = some t0) (ht0 : t0.pending = true) (htok : t0.tok = tok) :
    MasterInv (settleFailAct i tok s) := by
  have htmem := mem_of_getElemEq hg
  have htoklt : tok < s.store.length := htok ▸ hInv.tasks_lt t0 htmem
  have hts : (settleFailAct i tok s).tasks = s.tasks.set i ⟨tok, .sleeping⟩ := rfl
  rcases failBody_cases tok s with ⟨hret, heq⟩ | ⟨hret, heq⟩
  · have hsq : (settleFailAct i tok s).queue = tok :: s.queue := by
      show (failBody tok s).queue = _
      rw [heq]; rfl
    have hst : (settleFailAct i tok s).store = s.store.set tok
        { s.item tok with retries := (s.item tok).retries + 1, status := .queued } := by
      show (failBody tok s).store = _
      rw [heq]; rfl
    have hcm : (settleFailAct i tok s).completed = s.completed := by
      show (failBody tok s).completed = _
      rw [heq]; rfl
    have hfl : (settleFailAct i tok s).failed = s.failed := by
      show (failBody tok s).failed = _
      rw [heq]; rfl
    have hsa : ∀ x ∈ (settleFailAct i tok s).active, x ∈ s.active := by
      intro x hx
      have hx' : x ∈ (failBody tok s).active := hx
      rw [heq] at hx'
      exact (List.eraseP_sublist _).subset hx'
    have hra : (settleFailAct i tok s).retryAttempts = s.retryAttempts := by
      show (failBody tok s).retryAttempts = _
      rw [heq]; rfl
    constructor
    · intro x hx
      rw [hst, List.length_set]
      rw [hsq] at hx
      rcases List.mem_cons.mp hx with h | h
      · rw [h]; exact htoklt
      · exact hInv.queue_lt x h
    · intro x hx
      rw [hst, List.length_set]
      exact hInv.active_lt x (hsa x hx)
    · intro x hx
      rw [hst, List.length_set]
      exact hInv.completed_lt x (hcm ▸ hx)
    · intro x hx
      rw [hst, List.length_set]
      exact hInv.failed_lt x (hfl ▸ hx)
    · intro t ht
      rw [hst, List.length_set]
      rw [hts] at ht
      rcases List.mem_or_eq_of_mem_set ht with h | h
      · exact hInv.tasks_lt t h
      · rw [h]; exact htoklt
    · intro x
      rw [occCount_eq, hsq, hcm, hfl, hts, count_cons_nat]
      have hset := countP_set_getElemEq (fun t => t.pending && t.tok == x) s.tasks i t0
        ⟨tok, .sleeping⟩ hg
      simp only [ht0, htok, pending_sleeping, Bool.true_and, Bool.false_and, beq_iff_eq,
        Bool.false_eq_true, if_false] at hset
      have hocc := hInv.occ_le_one x
      rw [occCount_eq] at hocc
      simp only [pcountL] at hocc ⊢
      omega
    · intro it hit
      rw [hra]
      rw [hst] at hit
      rcases List.mem_or_eq_of_mem_set hit with h | h
      · exact hInv.retries_le it h
      · subst h
        show (s.item tok).retries + 1 ≤ s.retryAttempts
        omega
    · intro it hit
      rw [hst] at hit
      rcases List.mem_or_eq_of_mem_set hit with h | h
      · exact hInv.dlid_none it h
      · subst h
        show (s.item tok).downloadId = none
        exact hInv.item_dlid tok
  · have hsq : (settleFailAct i tok s).queue = s.queue := by
      show (failBody tok s).queue = _
      rw [heq]; rfl
    have hst : (settleFailAct i tok s).store = s.store.set tok
        { s.item tok with status := .failed, error := some "download failed" } := by
      show (failBody tok s).store = _
      rw [heq]; rfl
    have hcm : (settleFailAct i tok s).completed = s.completed := by
      show (failBody tok s).completed = _
      rw [heq]; rfl
    have hfl : (settleFailAct i tok s).failed = s.failed ++ [tok] := by
      show (failBody tok s).failed = _
      rw [heq]; rfl
    have hsa : ∀ x ∈ (settleFailAct i tok s).active, x ∈ s.active := by
      intro x hx
      have hx' : x ∈ (failBody tok s).active := hx
      rw [heq] at hx'
      exact (List.eraseP_sublist _).subset hx'
    have hra : (settleFailAct i tok s).retryAttempts = s.retryAttempts := by
      show (failBody tok s).retryAttempts = _
      rw [heq]; rfl
    constructor
    · intro x hx
      rw [hst, List.length_set]
      exact hInv.queue_lt x (hsq ▸ hx)
    · intro x hx
      rw [hst, List.length_set]
      exact hInv.active_lt x (hsa x hx)
    · intro x hx
      rw [hst, List.length_set]
      exact hInv.completed_lt x (hcm ▸ hx)
    · intro x hx
      rw [hst, List.length_set]
      rw [hfl] at hx
      rcases List.mem_append.mp hx with h | h
      · exact hInv.failed_lt x h
      · rw [List.mem_singleton.mp h]; exact htoklt
    · intro t ht
      rw [hst, List.length_set]
      rw [hts] at ht
      rcases List.mem_or_eq_of_mem_set ht with h | h
      · exact hInv.tasks_lt t h
      · rw [h]; exact htoklt
    · intro x
      rw [occCount_eq, hsq, hcm, hfl, hts, count_append_single]
      have hset := countP_set_getElemEq (fun t => t.pending && t.tok == x) s.tasks i t0
        ⟨tok, .sleeping⟩ hg
      simp only [ht0, htok, pending_sleeping, Bool.true_and, Bool.false_and, beq_iff_eq,
        Bool.false_eq_true, if_false] at hset
      have hocc := hInv.occ_le_one x
      rw [occCount_eq] at hocc
      simp only [pcountL] at hocc ⊢
      omega
    · intro it hit
      rw [hra]
      rw [hst] at hit
      rcases List.mem_or_eq_of_mem_set hit with h | h
      · exact hInv.retries_le it h
      · subst h
        show (s.item tok).retries ≤ s.retryAttempts
        exact hInv.item_retries tok
    · intro it hit
      rw [hst] at hit
      rcases List.mem_or_eq_of_mem_set hit with h | h
      · exact hInv.dlid_none it h
      · subst h
        show (s.item tok).downloadId = none
        exact hInv.item_dlid tok

theorem masterInv_startOk {s : DMState} (hInv : MasterInv s) {i tok handle : Nat}
    {t0 : TaskState} (hg : s.tasks[i]? = some t0) (ht0 : t0.pending = true)
    (htok : t0.tok = tok) : MasterInv (startOkAct i tok handle s) := by
  have htmem := mem_of_getElemEq hg
  have htoklt : tok < s.store.length := htok ▸ hInv.tasks_lt t0 htmem
  have hts : (startOkAct i tok handle s).tasks = s.tasks.set i ⟨tok, .inFlight handle⟩ := rfl
  constructor
  · intro x hx; exact hInv.queue_lt x hx
  · intro x hx; exact hInv.active_lt x hx
  · intro x hx; exact hInv.completed_lt x hx
  · intro x hx; exact hInv.failed_lt x hx
  · intro t ht
    rw [hts] at ht
    rcases List.mem_or_eq_of_mem_set ht with h | h
    · exact hInv.tasks_lt t h
    · rw [h]; exact htoklt
  · intro x
    rw [occCount_eq, hts,
      show (startOkAct i tok handle s).queue = s.queue from rfl,
      show (startOkAct i tok handle s).completed = s.completed from rfl,
      show (startOkAct i tok handle s).failed = s.failed from rfl]
    have hset := countP_set_getElemEq (fun t => t.pending && t.tok == x) s.tasks i t0
      ⟨tok, .inFlight handle⟩ hg
    simp only [ht0, htok, pending_inflight, Bool.true_and, beq_iff_eq] at hset
    have hocc := hInv.occ_le_one x
    rw [occCount_eq] at hocc
    simp only [pcountL] at hocc ⊢
    omega
  · intro it hit; exact hInv.retries_le it hit
  · intro it hit; exact hInv.dlid_none it hit

theorem masterInv_sleepDone {s : DMState} (hInv : MasterInv s) {i tok : Nat}
    (hg : s.tasks[i]? = some ⟨tok, .sleeping⟩) : MasterInv (sleepDoneAct i s) := by
  have hts : (sleepDoneAct i s).tasks = s.tasks.eraseIdx i := rfl
  constructor
  · intro x hx; exact hInv.queue_lt x hx
  · intro x hx; exact hInv.active_lt x hx
  · intro x hx; exact hInv.completed_lt x hx
  · intro x hx; exact hInv.failed_lt x hx
  · intro t ht
    rw [hts] at ht
    exact hInv.tasks_lt t ((List.eraseIdx_sublist s.tasks i).subset ht)
  · intro x
    rw [occCount_eq, hts,
      show (sleepDoneAct i s).queue = s.queue from rfl,
      show (sleepDoneAct i s).completed = s.completed from rfl,
      show (sleepDoneAct i s).failed = s.failed from rfl]
    have hset := countP_eraseIdx_getElemEq (fun t => t.pending && t.tok == x) s.tasks i
      ⟨tok, .sleeping⟩ hg
    simp only [pending_sleeping, Bool.false_and, Bool.false_eq_true, if_false] at hset
    have hocc := hInv.occ_le_one x
    rw [occCount_eq] at hocc
    simp only [pcountL] at hocc ⊢
    omega
  · intro it hit; exact hInv.retries_le it hit
  · intro it hit; exact hInv.dlid_none it hit

theorem masterInv_cancel {s : DMState} (hInv : MasterInv s) : MasterInv (cancelAct s) := by
  constructor
  · intro x hx; exact absurd hx (List.not_mem_nil x)
  · intro x hx; exact absurd hx (List.not_mem_nil x)
  · intro x hx; exact hInv.completed_lt x hx
  · intro x hx; exact hInv.failed_lt x hx
  · intro t ht; exact hInv.tasks_lt t ht
  · intro x
    rw [occCount_eq,
      show (cancelAct s).queue = ([] : List Nat) from rfl,
      show (cancelAct s).tasks = s.tasks from rfl,
      show (cancelAct s).completed = s.completed from rfl,
      show (cancelAct s).failed = s.failed from rfl]
    have hocc := hInv.occ_le_one x
    rw [occCount_eq] at hocc
    simp only [List.count_nil]
    omega
  · intro it hit; exact hInv.retries_le it hit
  · intro it hit; exact hInv.dlid_none it hit

theorem masterInv_step {s s' : DMState} (hInv : MasterInv s) (h : Step s s') :
    MasterInv s' := by
  cases h with
  | enqueue raws now hd => exact masterInv_enqueue raws now hInv
  | startCall hd =>
    unfold startAct; split_ifs <;> exact masterInv_frame hInv rfl rfl rfl rfl rfl rfl rfl
  | fill hd =>
    rcases fillStepAct_cases s with ⟨tok, rest, hq, hlt, heq⟩ | heq <;> rw [heq]
    · exact masterInv_fill hInv hq hlt
    · exact masterInv_frame hInv rfl rfl rfl rfl rfl rfl rfl
  | wakeMain hd =>
    unfold wakeMainAct; split_ifs <;> exact masterInv_frame hInv rfl rfl rfl rfl rfl rfl rfl
  | wakePause hd =>
    unfold wakePauseAct; split_ifs <;> exact masterInv_frame hInv rfl rfl rfl rfl rfl rfl rfl
  | pauseCall hd => exact masterInv_frame hInv rfl rfl rfl rfl rfl rfl rfl
  | resumeCall hd => exact masterInv_frame hInv rfl rfl rfl rfl rfl rfl rfl
  | cancelCall hd => exact masterInv_cancel hInv
  | startOk i tok handle hd hh hg => exact masterInv_startOk hInv hg rfl rfl
  | startFail i tok hd hg => exact masterInv_settleFail hInv hg rfl rfl
  | complete i tok handle hd hg => exact masterInv_settleOk hInv hg rfl rfl
  | interrupted i tok handle hd hg => exact masterInv_settleFail hInv hg rfl rfl
  | sleepDone i tok hd hg => exact masterInv_sleepDone hInv hg

theorem masterInv_reach {opts : Options} {s : DMState} (h : Reach opts s) : MasterInv s := by
  induction h with
  | refl => exact masterInv_init opts
  | tail hr hstep ih => exact masterInv_step ih hstep

/-! ### The partition invariant

Prior to cancellation and for runs whose items carry pairwise-distinct ids,
every enqueued item sits in exactly one of the four collections, the
active set matches the pending tasks, and the four collection sizes sum to
the number of items enqueued since `init`. -/

structure PartInv (s : DMState) : Prop where
  cnt_one : ∀ tok, tok < s.store.length → cntAll s tok = 1
  cnt_zero : ∀ tok, s.store.length ≤ tok → cntAll s tok = 0
  act_pend : ∀ x, s.active.count x = pcountL x s.tasks
  len_sum : s.queue.length + s.active.length + s.completed.length + s.failed.length
    = s.store.length

theorem cntAll_eq (s : DMState) (x : Nat) :
    cntAll s x = s.queue.count x + s.active.count x +
      s.completed.count x + s.failed.count x := rfl

theorem partInv_init (opts : Options) : PartInv (DMState.init opts) := by
  constructor <;> simp [DMState.init, cntAll, pcountL]

theorem ids_inj {s : DMState} (hids : IdsDistinct s) {a b : Nat}
    (ha : a < s.store.length) (hb : b < s.store.length)
    (h : (s.item a).id = (s.item b).id) : a = b := by
  have hga : s.item a = s.store[a] := by
    simp [DMState.item, List.getD_eq_getElem?_getD, List.getElem?_eq_getElem ha]
  have hgb : s.item b = s.store[b] := by
    simp [DMState.item, List.getD_eq_getElem?_getD, List.getElem?_eq_getElem hb]
  have ha2 : a < (s.store.map ItemData.id).length := by simpa using ha
  have hb2 : b < (s.store.map ItemData.id).length := by simpa using hb
  have hmap : (s.store.map ItemData.id)[a] = (s.store.map ItemData.id)[b] := by
    rw [List.getElem_map, List.getElem_map]
    rw [hga, hgb] at h
    exact h
  exact hids.getElem_inj_iff.mp hmap

theorem item_id_set (s : DMState) (tok : Nat) (it' : ItemData) (u : DMState)
    (hu : u.store = s.store.set tok it') (hid : it'.id = (s.item tok).id)
    (t' : Nat) : (u.item t').id = (s.item t').id := by
  unfold DMState.item
  rw [hu]
  by_cases hlt : tok < s.store.length
  · by_cases he : t' = tok
    · subst he
      have h1 : (s.store.set t' it').getD t' default = it' := by
        rw [List.getD_eq_getElem?_getD, List.getElem?_set_self (by simpa using hlt)]
        rfl
      rw [h1]
      exact hid
    · rw [List.getD_eq_getElem?_getD, List.getElem?_set_ne (fun habs => he habs.symm),
        ← List.getD_eq_getElem?_getD]
  · rw [List.set_eq_of_length_le (by omega)]

/-- What the `finally` splice does under distinct ids: the first (and only)
id match in the active set is the settling token itself. -/
theorem splice_facts {s : DMState} (hm : MasterInv s) (hids : IdsDistinct s)
    {tok : Nat} (htoklt : tok < s.store.length) (hmem : tok ∈ s.active)
    (s1 : DMState) (hact : s1.active = s.active)
    (hid : ∀ t', (s1.item t').id = (s.item t').id) :
    (spliceActive tok s1).active.count tok + 1 = s.active.count tok ∧
    (∀ b, b ≠ tok → (spliceActive tok s1).active.count b = s.active.count b) ∧
    (spliceActive tok s1).active.length + 1 = s.active.length := by
  have hchar : ∀ x ∈ s.active,
      (((s1.item x).id == (s1.item tok).id) = true ↔ x = tok) := by
    intro x hx
    rw [hid x, hid tok, beq_iff_eq]
    constructor
    · intro h
      exact ids_inj hids (hm.active_lt x hx) htoklt h
    · intro h; rw [h]
  have hsplice : (spliceActive tok s1).active
      = s.active.eraseP fun t => (s1.item t).id == (s1.item tok).id := by
    show s1.active.eraseP _ = _
    rw [hact]
  rw [hsplice]
  exact eraseP_count_facts _ tok s.active hchar hmem

theorem partInv_frame {s t : DMState} (hp : PartInv s) (hq : t.queue = s.queue)
    (ha : t.active = s.active) (hc : t.completed = s.completed) (hf : t.failed = s.failed)
    (hs : t.store = s.store) (ht : t.tasks = s.tasks) : PartInv t := by
  constructor
  · intro x hx
    rw [cntAll_eq, hq, ha, hc, hf]
    have := hp.cnt_one x (by rw [hs] at hx; exact hx)
    rw [cntAll_eq] at this
    exact this
  · intro x hx
    rw [cntAll_eq, hq, ha, hc, hf]
    have := hp.cnt_zero x (by rw [hs] at hx; exact hx)
    rw [cntAll_eq] at this
    exact this
  · intro x
    rw [ha, ht]
    exact hp.act_pend x
  · rw [hq, ha, hc, hf, hs]
    exact hp.len_sum

theorem partInv_enqueue (raws : List RawItem) (now : Nat) {s : DMState}
    (hp : PartInv s) : PartInv (addToQueueAct raws now s) := by
  have hlen : (addToQueueAct raws now s).store.length = s.store.length + raws.length := by
    simp [addToQueueAct, normalizeItems_length]
  have hqe : (addToQueueAct raws now s).queue
      = s.queue ++ List.range' s.store.length raws.length := rfl
  have hae : (addToQueueAct raws now s).active = s.active := rfl
  have hce : (addToQueueAct raws now s).completed = s.completed := rfl
  have hfe : (addToQueueAct raws now s).failed = s.failed := rfl
  have hte : (addToQueueAct raws now s).tasks = s.tasks := rfl
  constructor
  · intro x hx
    rw [hlen] at hx
    rw [cntAll_eq, hqe, hae, hce, hfe, List.count_append]
    by_cases hc : x < s.store.length
    · have hr0 : (List.range' s.store.length raws.length).count x = 0 := by
        rw [List.count_eq_zero]
        intro hmem
        have := List.mem_range'_1.mp hmem
        omega
      have h1 := hp.cnt_one x hc
      rw [cntAll_eq] at h1
      omega
    · have h0 := hp.cnt_zero x (by omega)
      rw [cntAll_eq] at h0
      have hmemr : x ∈ List.range' s.store.length raws.length :=
        List.mem_range'_1.mpr ⟨by omega, by omega⟩
      have hge : 0 < (List.range' s.store.length raws.length).count x :=
        List.count_pos_iff.mpr hmemr
      have hle : (List.range' s.store.length raws.length).count x ≤ 1 :=
        List.nodup_iff_count_le_one.mp (List.nodup_range' _ _) x
      omega
  · intro x hx
    rw [hlen] at hx
    rw [cntAll_eq, hqe, hae, hce, hfe, List.count_append]
    have h0 := hp.cnt_zero x (by omega)
    rw [cntAll_eq] at h0
    have hr0 : (List.range' s.store.length raws.length).count x = 0 := by
      rw [List.count_eq_zero]
      intro hmem
      have := List.mem_range'_1.mp hmem
      omega
    omega
  · intro x
    rw [hae, hte]
    exact hp.act_pend x
  · rw [hqe, hae, hce, hfe, hlen, List.length_append, List.length_range']
    have := hp.len_sum
    omega

theorem partInv_fill {s : DMState} (hm : MasterInv s) (hp : PartInv s)
    {tok : Nat} {rest : List Nat}
    (hq : s.queue = tok :: rest) (hlt : s.active.length < s.maxConcurrent) :
    PartInv { s with
      queue := rest
      active := s.active ++ [tok]
      store := s.store.set tok { s.item tok with status := .downloading }
      tasks := s.tasks ++ [⟨tok, .awaitingStart⟩] } := by
  have htoklt : tok < s.store.length :=
    hm.queue_lt tok (by rw [hq]; exact List.mem_cons_self tok rest)
  constructor
  · intro x hx
    rw [List.length_set] at hx
    rw [cntAll_eq]
    show rest.count x + (s.active ++ [tok]).count x + s.completed.count x
      + s.failed.count x = 1
    rw [count_append_single]
    have h1 := hp.cnt_one x hx
    rw [cntAll_eq, hq, count_cons_nat] at h1
    omega
  · intro x hx
    rw [List.length_set] at hx
    rw [cntAll_eq]
    show rest.count x + (s.active ++ [tok]).count x + s.completed.count x
      + s.failed.count x = 0
    rw [count_append_single]
    have h0 := hp.cnt_zero x hx
    rw [cntAll_eq, hq, count_cons_nat] at h0
    omega
  · intro x
    show (s.active ++ [tok]).count x = pcountL x (s.tasks ++ [⟨tok, .awaitingStart⟩])
    rw [count_append_single, pcountL_append, pcountL_single]
    simp only [pending_awaiting, Bool.true_and, beq_iff_eq]
    have := hp.act_pend x
    omega
  · show rest.length + (s.active ++ [tok]).length + s.completed.length + s.failed.length
      = (s.store.set tok _).length
    rw [List.length_append, List.length_set]
    have hsum := hp.len_sum
    have hqlen : s.queue.length = rest.length + 1 := by rw [hq]; rfl
    simp only [List.length_singleton]
    omega

theorem partInv_settleOk {s : DMState} (hm : MasterInv s) (hids : IdsDistinct s)
    (hp : PartInv s) {i tok : Nat} {t0 : TaskState}
    (hg : s.tasks[i]? = some t0) (ht0 : t0.pending = true) (htok : t0.tok = tok) :
    PartInv (settleOkAct i tok s) := by
  have htmem := mem_of_getElemEq hg
  have htoklt : tok < s.store.length := htok ▸ hm.tasks_lt t0 htmem
  have hppos : 0 < pcountL tok s.tasks := by
    unfold pcountL
    exact List.countP_pos_iff.mpr ⟨t0, htmem, by simp [ht0, htok]⟩
  have hmem : tok ∈ s.active :=
    List.count_pos_iff.mp (by rw [hp.act_pend tok]; exact hppos)
  obtain ⟨hs1, hs2, hs3⟩ := splice_facts hm hids htoklt hmem
    { s with store := s.store.set tok { s.item tok with status := .completed },
             completed := s.completed ++ [tok] }
    rfl (fun t' => item_id_set s tok { s.item tok with status := .completed } _ rfl rfl t')
  have hae : (settleOkAct i tok s).active
      = (spliceActive tok { s with
          store := s.store.set tok { s.item tok with status := .completed },
          completed := s.completed ++ [tok] }).active := rfl
  have hqe : (settleOkAct i tok s).queue = s.queue := rfl
  have hce : (settleOkAct i tok s).completed = s.completed ++ [tok] := rfl
  have hfe : (settleOkAct i tok s).failed = s.failed := rfl
  have hte : (settleOkAct i tok s).tasks = s.tasks.set i ⟨tok, .sleeping⟩ := rfl
  have hstl : (settleOkAct i tok s).store.length = s.store.length := by
    rw [show (settleOkAct i tok s).store
      = s.store.set tok { s.item tok with status := .completed } from rfl, List.length_set]
  constructor
  · intro x hx
    rw [hstl] at hx
    rw [cntAll_eq, hqe, hce, hfe, hae, count_append_single]
    have h1 := hp.cnt_one x hx
    rw [cntAll_eq] at h1
    by_cases he : x = tok
    · subst he
      rw [if_pos rfl]
      omega
    · rw [if_neg (fun habs => he habs.symm), hs2 x he]
      omega
  · intro x hx
    rw [hstl] at hx
    rw [cntAll_eq, hqe, hce, hfe, hae, count_append_single]
    have h0 := hp.cnt_zero x hx
    rw [cntAll_eq] at h0
    have hne : x ≠ tok := by omega
    rw [hs2 x hne, if_neg (fun habs => hne habs.symm)]
    omega
  · intro x
    rw [hae, hte]
    have hset := countP_set_getElemEq (fun t => t.pending && t.tok == x) s.tasks i t0
      ⟨tok, .sleeping⟩ hg
    simp only [ht0, htok, pending_sleeping, Bool.true_and, Bool.false_and, beq_iff_eq,
      Bool.false_eq_true, if_false] at hset
    have hap := hp.act_pend x
    simp only [pcountL] at hap hs1 hs2 ⊢
    by_cases he : x = tok
    · subst he
      rw [if_pos rfl] at hset
      omega
    · rw [if_neg (fun habs => he habs.symm)] at hset
      rw [hs2 x he]
      omega
  · rw [hqe, hae, hce, hfe, hstl, List.length_append]
    have hsum := hp.len_sum
    simp only [List.length_singleton] at hs3 ⊢
    omega

theorem partInv_settleFail {s : DMState} (hm : MasterInv s) (hids : IdsDistinct s)
    (hp : PartInv s) {i tok : Nat} {t0 : TaskState}
    (hg : s.tasks[i]? = some t0) (ht0 : t0.pending = true) (htok : t0.tok = tok) :
    PartInv (settleFailAct i tok s) := by
  have htmem := mem_of_getElemEq hg
  have htoklt : tok < s.store.length := htok ▸ hm.tasks_lt t0 htmem
  have hppos : 0 < pcountL tok s.tasks := by
    unfold pcountL
    exact List.countP_pos_iff.mpr ⟨t0, htmem, by simp [ht0, htok]⟩
  have hmem : tok ∈ s.active :=
    List.count_pos_iff.mp (by rw [hp.act_pend tok]; exact hppos)
  have hte : (settleFailAct i tok s).tasks = s.tasks.set i ⟨tok, .sleeping⟩ := rfl
  have hset0 : ∀ x, (s.tasks.set i ⟨tok, .sleeping⟩).countP
        (fun t => t.pending && t.tok == x) + (if tok = x then 1 else 0)
      = s.tasks.countP (fun t => t.pending && t.tok == x) := by
    intro x
    have hset := countP_set_getElemEq (fun t => t.pending && t.tok == x) s.tasks i t0
      ⟨tok, .sleeping⟩ hg
    simp only [ht0, htok, pending_sleeping, Bool.true_and, Bool.false_and, beq_iff_eq,
      Bool.false_eq_true, if_false] at hset
    omega
  rcases failBody_cases tok s with ⟨hret, heq⟩ | ⟨hret, heq⟩
  · obtain ⟨hs1, hs2, hs3⟩ := splice_facts hm hids htoklt hmem
      { s with
        store := s.store.set tok
          { s.item tok with retries := (s.item tok).retries + 1, status := .queued }
        queue := tok :: s.queue }
      rfl (fun t' => item_id_set s tok
        { s.item tok with retries := (s.item tok).retries + 1, status := .queued } _ rfl rfl t')
    have hae : (settleFailAct i tok s).active
        = (spliceActive tok { s with
            store := s.store.set tok
              { s.item tok with retries := (s.item tok).retries + 1, status := .queued }
            queue := tok :: s.queue }).active := by
      show (failBody tok s).active = _
      rw [heq]
    have hqe : (settleFailAct i tok s).queue = tok :: s.queue := by
      show (failBody tok s).queue = _
      rw [heq]; rfl
    have hce : (settleFailAct i tok s).completed = s.completed := by
      show (failBody tok s).completed = _
      rw [heq]; rfl
    have hfe : (settleFailAct i tok s).failed = s.failed := by
      show (failBody tok s).failed = _
      rw [heq]; rfl
    have hstl : (settleFailAct i tok s).store.length = s.store.length := by
      show (failBody tok s).store.length = _
      rw [heq]
      show (s.store.set tok _).length = _
      rw [List.length_set]
    constructor
    · intro x hx
      rw [hstl] at hx
      rw [cntAll_eq, hqe, hce, hfe, hae, count_cons_nat]
      have h1 := hp.cnt_one x hx
      rw [cntAll_eq] at h1
      by_cases he : x = tok
      · subst he
        rw [if_pos rfl]
        omega
      · rw [if_neg (fun habs => he habs.symm), hs2 x he]
        omega
    · intro x hx
      rw [hstl] at hx
      rw [cntAll_eq, hqe, hce, hfe, hae, count_cons_nat]
      have h0 := hp.cnt_zero x hx
      rw [cntAll_eq] at h0
      have hne : x ≠ tok := by omega
      rw [hs2 x hne, if_neg (fun habs => hne habs.symm)]
      omega
    · intro x
      rw [hae, hte]
      have hap := hp.act_pend x
      have hsx := hset0 x
      simp only [pcountL] at hap hs1 hs2 ⊢
      by_cases he : x = tok
      · subst he
        rw [if_pos rfl] at hsx
        omega
      · rw [if_neg (fun habs => he habs.symm)] at hsx
        rw [hs2 x he]
        omega
    · rw [hqe, hae, hce, hfe, hstl]
      have hsum := hp.len_sum
      simp only [List.length_cons] at hs3 ⊢
      omega
  · obtain ⟨hs1, hs2, hs3⟩ := splice_facts hm hids htoklt hmem
      { s with
        store := s.store.set tok
          { s.item tok with status := .failed, error := some "download failed" }
        failed := s.failed ++ [tok]
        errorCalls := s.errorCalls ++ [tok] }
      rfl (fun t' => item_id_set s tok
        { s.item tok with status := .failed, error := some "download failed" } _ rfl rfl t')
    have hae : (settleFailAct i tok s).active
        = (spliceActive tok { s with
            store := s.store.set tok
              { s.item tok with status := .failed, error := some "download failed" }
            failed := s.failed ++ [tok]
            errorCalls := s.errorCalls ++ [tok] }).active := by
      show (failBody tok s).active = _
      rw [heq]
    have hqe : (settleFailAct i tok s).queue = s.queue := by
      show (failBody tok s).queue = _
      rw [heq]; rfl
    have hce : (settleFailAct i tok s).completed = s.completed := by
      show (failBody tok s).completed = _
      rw [heq]; rfl
    have hfe : (settleFailAct i tok s).failed = s.failed ++ [tok] := by
      show (failBody tok s).failed = _
      rw [heq]; rfl
    have hstl : (settleFailAct i tok s).store.length = s.store.length := by
      show (failBody tok s).store.length = _
      rw [heq]
      show (s.store.set tok _).length = _
      rw [List.length_set]
    constructor
    · intro x hx
      rw [hstl] at hx
      rw [cntAll_eq, hqe, hce, hfe, hae, count_append_single]
      have h1 := hp.cnt_one x hx
      rw [cntAll_eq] at h1
      by_cases he : x = tok
      · subst he
        rw [if_pos rfl]
        omega
      · rw [if_neg (fun habs => he habs.symm), hs2 x he]
        omega
    · intro x hx
      rw [hstl] at hx
      rw [cntAll_eq, hqe, hce, hfe, hae, count_append_single]
      have h0 := hp.cnt_zero x hx
      rw [cntAll_eq] at h0
      have hne : x ≠ tok := by omega
      rw [hs2 x hne, if_neg (fun habs => hne habs.symm)]
      omega
    · intro x
      rw [hae, hte]
      have hap := hp.act_pend x
      have hsx := hset0 x
      simp only [pcountL] at hap hs1 hs2 ⊢
      by_cases he : x = tok
      · subst he
        rw [if_pos rfl] at hsx
        omega
      · rw [if_neg (fun habs => he habs.symm)] at hsx
        rw [hs2 x he]
        omega
    · rw [hqe, hae, hce, hfe, hstl, List.length_append]
      have hsum := hp.len_sum
      simp only [List.length_singleton] at hs3 ⊢
      omega

theorem partInv_startOk {s : DMState} (hp : PartInv s) {i tok handle : Nat}
    {t0 : TaskState} (hg : s.tasks[i]? = some t0) (ht0 : t0.pending = true)
    (htok : t0.tok = tok) : PartInv (startOkAct i tok handle s) := by
  have hte : (startOkAct i tok handle s).tasks = s.tasks.set i ⟨tok, .inFlight handle⟩ := rfl
  constructor
  · intro x hx
    exact hp.cnt_one x hx
  · intro x hx
    exact hp.cnt_zero x hx
  · intro x
    rw [show (startOkAct i tok handle s).active = s.active from rfl, hte]
    have hset := countP_set_getElemEq (fun t => t.pending && t.tok == x) s.tasks i t0
      ⟨tok, .inFlight handle⟩ hg
    simp only [ht0, htok, pending_inflight, Bool.true_and, beq_iff_eq] at hset
    have hap := hp.act_pend x
    simp only [pcountL] at hap ⊢
    omega
  · exact hp.len_sum

theorem partInv_sleepDone {s : DMState} (hp : PartInv s) {i tok : Nat}
    (hg : s.tasks[i]? = some ⟨tok, .sleeping⟩) : PartInv (sleepDoneAct i s) := by
  have hte : (sleepDoneAct i s).tasks = s.tasks.eraseIdx i := rfl
  constructor
  · intro x hx
    exact hp.cnt_one x hx
  · intro x hx
    exact hp.cnt_zero x hx
  · intro x
    rw [show (sleepDoneAct i s).active = s.active from rfl, hte]
    have hset := countP_eraseIdx_getElemEq (fun t => t.pending && t.tok == x) s.tasks i
      ⟨tok, .sleeping⟩ hg
    simp only [pending_sleeping, Bool.false_and, Bool.false_eq_true, if_false] at hset
    have hap := hp.act_pend x
    simp only [pcountL] at hap ⊢
    omega
  · exact hp.len_sum

theorem partInv_step {s s' : DMState} (hm : MasterInv s) (hids : IdsDistinct s)
    (hp : PartInv s) (h : Step s s') (hec : s'.everCancelled = false) : PartInv s' := by
  cases h with
  | enqueue raws now hd => exact partInv_enqueue raws now hp
  | startCall hd =>
    unfold startAct; split_ifs <;> exact partInv_frame hp rfl rfl rfl rfl rfl rfl
  | fill hd =>
    rcases fillStepAct_cases s with ⟨tok, rest, hq, hlt2, heq⟩ | heq <;> rw [heq]
    · exact partInv_fill hm hp hq hlt2
    · exact partInv_frame hp rfl rfl rfl rfl rfl rfl
  | wakeMain hd =>
    unfold wakeMainAct; split_ifs <;> exact partInv_frame hp rfl rfl rfl rfl rfl rfl
  | wakePause hd =>
    unfold wakePauseAct; split_ifs <;> exact partInv_frame hp rfl rfl rfl rfl rfl rfl
  | pauseCall hd => exact partInv_frame hp rfl rfl rfl rfl rfl rfl
  | resumeCall hd => exact partInv_frame hp rfl rfl rfl rfl rfl rfl
  | cancelCall hd => simp [cancelAct] at hec
  | startOk i tok handle hd hh hg => exact partInv_startOk hp hg rfl rfl
  | startFail i tok hd hg => exact partInv_settleFail hm hids hp hg rfl rfl
  | complete i tok handle hd hg => exact partInv_settleOk hm hids hp hg rfl rfl
  | interrupted i tok handle hd hg => exact partInv_settleFail hm hids hp hg rfl rfl
  | sleepDone i tok hd hg => exact partInv_sleepDone hp hg

theorem partInv_reach {opts : Options} {s : DMState} (h : Reach opts s) :
    s.everCancelled = false → IdsDistinct s → PartInv s := by
  induction h with
  | refl => intro _ _; exact partInv_init opts
  | @tail s1 s2 hr hstep ih =>
    intro hec hids
    have hecs : s1.everCancelled = false := by
      rcases Step.ever_or hstep with h' | h'
      · rw [← h']; exact hec
      · rw [h'] at hec; exact absurd hec (by simp)
    have hidss : IdsDistinct s1 := (Step.ids_sublist hstep).nodup hids
    exact partInv_step (masterInv_reach hr) hidss (ih hecs hidss) hstep hec

/-! ### Bounded concurrency and the abort log -/

theorem settleOk_active_len (i tok : Nat) (s : DMState) :
    (settleOkAct i tok s).active.length ≤ s.active.length :=
  (List.eraseP_sublist s.active).length_le

theorem settleFail_active_len (i tok : Nat) (s : DMState) :
    (settleFailAct i tok s).active.length ≤ s.active.length := by
  rcases failBody_cases tok s with ⟨_, heq⟩ | ⟨_, heq⟩ <;>
  · have h0 : (settleFailAct i tok s).active = (failBody tok s).active := rfl
    rw [h0, heq]
    exact (List.eraseP_sublist s.active).length_le

/-- The only step that grows the active set is a slot fill, and it requires
strictly fewer active items than `maxConcurrent`. -/
theorem Step.active_growth {s s' : DMState} (h : Step s s') :
    s'.active.length ≤ s.active.length ∨
    (s.active.length < s.maxConcurrent ∧ s'.active.length = s.active.length + 1) := by
  cases h with
  | enqueue raws now hd => exact Or.inl (le_refl _)
  | startCall hd =>
    unfold startAct; split_ifs <;> exact Or.inl (le_refl _)
  | fill hd =>
    rcases fillStepAct_cases s with ⟨tok, rest, hq, hlt, heq⟩ | heq <;> rw [heq]
    · right
      refine ⟨hlt, ?_⟩
      show (s.active ++ [tok]).length = s.active.length + 1
      simp
    · exact Or.inl (le_refl _)
  | wakeMain hd =>
    unfold wakeMainAct; split_ifs <;> exact Or.inl (le_refl _)
  | wakePause hd =>
    unfold wakePauseAct; split_ifs <;> exact Or.inl (le_refl _)
  | pauseCall hd => exact Or.inl (le_refl _)
  | resumeCall hd => exact Or.inl (le_refl _)
  | cancelCall hd => exact Or.inl (Nat.zero_le _)
  | startOk i tok handle hd hh hg => exact Or.inl (le_refl _)
  | startFail i tok hd hg => exact Or.inl (settleFail_active_len i tok s)
  | complete i tok handle hd hg => exact Or.inl (settleOk_active_len i tok s)
  | interrupted i tok handle hd hg => exact Or.inl (settleFail_active_len i tok s)
  | sleepDone i tok hd hg => exact Or.inl (le_refl _)

theorem activeLen_le_reach {opts : Options} {s : DMState} (h : Reach opts s) :
    s.active.length ≤ s.maxConcurrent := by
  induction h with
  | refl => exact Nat.zero_le _
  | @tail s1 s2 hr hstep ih =>
    have hmc : s2.maxConcurrent = s1.maxConcurrent := (Step.config_eq hstep).1
    rw [hmc]
    rcases Step.active_growth hstep with hle | ⟨hlt, heq⟩
    · omega
    · omega

/-- A step either leaves the abort log alone or appends the `downloadId`s of
the active items (the `cancel()` branch). -/
theorem Step.aborted_or {s s' : DMState} (h : Step s s') :
    s'.aborted = s.aborted ∨
    s'.aborted = s.aborted ++ s.active.filterMap fun tok => (s.item tok).downloadId := by
  cases h <;>
    simp only [addToQueueAct, startAct, fillStepAct, wakeMainAct, wakePauseAct, pauseAct,
      resumeAct, cancelAct, startOkAct, settleOkAct, settleFailAct, sleepDoneAct,
      successBody, failBody, spliceActive] <;>
    (repeat' split) <;>
    simp

/-- `chrome.downloads.cancel` is never invoked in any run: `processItem`
stores the platform handle only in a local variable and never on the item,
so `cancel()`'s guard `if (item.downloadId)` never fires. -/
theorem aborted_nil_reach {opts : Options} {s : DMState} (h : Reach opts s) :
    s.aborted = [] := by
  induction h with
  | refl => rfl
  | @tail s1 s2 hr hstep ih =>
    have hm := masterInv_reach hr
    rcases Step.aborted_or hstep with h' | h'
    · rw [h', ih]
    · rw [h', ih]
      simp only [List.nil_append]
      rw [List.filterMap_eq_nil]
      intro tok _
      exact hm.item_dlid tok

theorem Step.failed_mem_mono {s s' : DMState} (h : Step s s') {tok : Nat}
    (hmem : tok ∈ s.failed) : tok ∈ s'.failed := by
  have h1 : 0 < s.failed.count tok := List.count_pos_iff.mpr hmem
  have h2 := Step.failed_count_mono h tok
  exact List.count_pos_iff.mp (by omega)

/-! ### FIFO, retry-requeue and id-assignment lemmas -/

/-- Any step that moves an item into the active set takes it from the head
of the queue. -/
theorem step_fill_head {s s' : DMState} (h : Step s s') (x : Nat)
    (hnot : x ∉ s.active) (hin : x ∈ s'.active) : s.queue = x :: s'.queue := by
  cases h with
  | enqueue raws now hd => exact absurd hin hnot
  | startCall hd =>
    unfold startAct at hin
    split_ifs at hin <;> exact absurd hin hnot
  | fill hd =>
    rcases fillStepAct_cases s with ⟨tok, rest, hq, hlt, heq⟩ | heq <;> rw [heq] at hin ⊢
    · rcases List.mem_append.mp hin with h1 | h1
      · exact absurd h1 hnot
      · have hx := List.mem_singleton.mp h1
        subst hx
        exact hq
    · exact absurd hin hnot
  | wakeMain hd =>
    unfold wakeMainAct at hin
    split_ifs at hin <;> exact absurd hin hnot
  | wakePause hd =>
    unfold wakePauseAct at hin
    split_ifs at hin <;> exact absurd hin hnot
  | pauseCall hd => exact absurd hin hnot
  | resumeCall hd => exact absurd hin hnot
  | cancelCall hd => exact absurd hin (List.not_mem_nil x)
  | startOk i tok handle hd hh hg => exact absurd hin hnot
  | startFail i tok hd hg =>
    have hsub : x ∈ s.active := by
      rcases failBody_cases tok s with ⟨_, heq⟩ | ⟨_, heq⟩ <;>
      · have h0 : (settleFailAct i tok s).active = (failBody tok s).active := rfl
        rw [h0, heq] at hin
        exact (List.eraseP_sublist _).subset hin
    exact absurd hsub hnot
  | complete i tok handle hd hg =>
    exact absurd ((List.eraseP_sublist s.active).subset hin) hnot
  | interrupted i tok handle hd hg =>
    have hsub : x ∈ s.active := by
      rcases failBody_cases tok s with ⟨_, heq⟩ | ⟨_, heq⟩ <;>
      · have h0 : (settleFailAct i tok s).active = (failBody tok s).active := rfl
        rw [h0, heq] at hin
        exact (List.eraseP_sublist _).subset hin
    exact absurd hsub hnot
  | sleepDone i tok hd hg => exact absurd hin hnot

/-- The catch path with retries remaining requeues the item at the *front*
of the queue and increments its counter. -/
theorem failBody_requeue {s : DMState} {tok : Nat} (htok : tok < s.store.length)
    (hret : (s.item tok).retries < s.retryAttempts) :
    (failBody tok s).queue = tok :: s.queue ∧
    ((failBody tok s).item tok).retries = (s.item tok).retries + 1 := by
  rcases failBody_cases tok s with ⟨_, heq⟩ | ⟨hret2, heq⟩
  · constructor
    · show (failBody tok s).queue = _
      rw [heq]; rfl
    · have hsto : (failBody tok s).store = s.store.set tok
          { s.item tok with retries := (s.item tok).retries + 1, status := .queued } := by
        show (failBody tok s).store = _
        rw [heq]; rfl
      show ((failBody tok s).store.getD tok default).retries = _
      rw [hsto, List.getD_eq_getElem?_getD, List.getElem?_set_self (by simpa using htok)]
      rfl
  · exact absurd hret hret2

/-- The ids assigned by the normalization of `addToQueue`. -/
theorem normalizeItems_id (now : Nat) : ∀ (raws : List RawItem) (idx i : Nat),
    i < raws.length →
    ((normalizeItems now raws idx).getD i default).id
      = orDefaultStr (raws.getD i default).id
          ("item_" ++ natStr now ++ "_" ++ natStr (idx + i))
  | [], _, i, hi => by simp at hi
  | r :: rs, idx, 0, _ => by
    simp [normalizeItems, List.getD_eq_getElem?_getD]
  | r :: rs, idx, i + 1, hi => by
    have ih := normalizeItems_id now rs (idx + 1) i (by simpa using hi)
    simp only [normalizeItems, List.getD_eq_getElem?_getD, List.getElem?_cons_succ] at ih ⊢
    rw [ih]
    have : idx + 1 + i = idx + (i + 1) := by omega
    rw [this]

theorem addToQueue_item {s : DMState} (raws : List RawItem) (now i : Nat) :
    (addToQueueAct raws now s).item (s.store.length + i)
      = (normalizeItems now raws 0).getD i default := by
  unfold DMState.item
  show (s.store ++ normalizeItems now raws 0).getD (s.store.length + i) default = _
  rw [List.getD_eq_getElem?_getD, List.getElem?_append, if_neg (by omega)]
  have : s.store.length + i - s.store.length = i := by omega
  rw [this, ← List.getD_eq_getElem?_getD]

/-- Distinct auto-generated ids for distinct indices of one `addToQueue`
call. -/
theorem autoId_inj (now : Nat) {i j : Nat} (hij : i ≠ j) :
    ("item_" ++ natStr now ++ "_" ++ natStr i)
      ≠ ("item_" ++ natStr now ++ "_" ++ natStr j) := by
  intro h
  apply hij
  apply natStr_injective
  have hd := congrArg String.data h
  simp only [String.data_append] at hd
  have h1 := List.append_cancel_left hd
  exact congrArg String.mk h1

/-! ### Concrete runs

Options and raw items for the concrete executions used by the claims.  The
explicit filenames and ids keep the evaluations small; `rawNoId` exercises
the auto-id template. -/

def opts0 : Options := ⟨none, none, none, none⟩

def optsOne : Options := ⟨some 1, none, none, none⟩

def optsR1 : Options := ⟨none, none, some 1, none⟩

def rawA : RawItem := ⟨some "a", "https://x.com/a.jpg", some "a.jpg", none⟩

def rawB : RawItem := ⟨some "b", "https://x.com/b.jpg", some "b.jpg", none⟩

def rawC : RawItem := ⟨some "c", "https://x.com/c.jpg", some "c.jpg", none⟩

def rawDupA : RawItem := ⟨some "a", "https://x.com/y.jpg", some "y.jpg", none⟩

def rawNoId : RawItem := ⟨none, "https://x.com/a.jpg", some "a.jpg", none⟩

/-- Run for C1: two items sharing the caller-supplied id `"a"`; the second
one finishes first and the `finally` splice removes the *first* id match. -/
def c1sF : DMState :=
  settleOkAct 1 1 (startOkAct 1 1 7 (fillStepAct (fillStepAct (fillStepAct
    (startAct (addToQueueAct [rawA, rawDupA] 0 (DMState.init opts0)))))))

example : c1sF.active = [1] ∧ c1sF.completed = [1] ∧ cntAll c1sF 0 = 0 := by decide

/-- Run for C3: one item in flight with platform handle 7, then `cancel()`. -/
def c3pre : DMState :=
  startOkAct 0 0 7 (fillStepAct (fillStepAct
    (startAct (addToQueueAct [rawA] 0 (DMState.init opts0)))))

def c3sF : DMState := cancelAct c3pre

example : c3pre.active = [0] ∧ c3pre.tasks = [⟨0, .inFlight 7⟩] ∧ c3sF.aborted = [] := by
  decide

/-- Run for C4, part 1: the item settles successfully after `cancel()` and
is still pushed onto the completed collection. -/
def c4mid : DMState := cancelAct c3pre

def c4sF : DMState := settleOkAct 0 0 c4mid

/-- Run for C4, part 2: the item fails after `cancel()` with retries left
and is requeued into the (previously cleared) queue. -/
def c4tmid : DMState :=
  cancelAct (startOkAct 0 0 7 (fillStepAct (fillStepAct
    (startAct (addToQueueAct [rawB] 0 (DMState.init opts0))))))

def c4tF : DMState := settleFailAct 0 0 c4tmid

/-- Run for C4, part 3 (`retryAttempts = 1`): the item fails once before
`cancel()` and once after; the second failure exhausts the retries and the
`onError` callback fires after cancellation. -/
def c4umid : DMState :=
  cancelAct (startOkAct 1 0 9 (fillStepAct (fillStepAct (wakeMainAct
    (settleFailAct 0 0 (fillStepAct (fillStepAct
      (startAct (addToQueueAct [rawA] 0 (DMState.init optsR1))))))))))

def c4uF : DMState := settleFailAct 1 0 c4umid

example : c4mid.everCancelled = true ∧ c4mid.completed = [] ∧ c4sF.completed = [0] := by
  decide
example : c4tmid.queue = [] ∧ c4tF.queue = [0] := by decide
example : c4umid.errorCalls = [] ∧ c4uF.errorCalls = [0] ∧ c4uF.failed = [0] := by decide

/-- Run for C5: queue `[A, B, C]` with one slot; `A` fails with retries
remaining, is requeued at the front, and is pulled again before `B`. -/
def c5sF : DMState :=
  fillStepAct (wakeMainAct (settleFailAct 0 0 (fillStepAct (fillStepAct
    (startAct (addToQueueAct [rawA, rawB, rawC] 0 (DMState.init optsOne)))))))

example : c5sF.active = [0] ∧ c5sF.queue = [1, 2] ∧ (c5sF.item 0).retries = 1 := by decide

/-- Run for C8: one slot; `A` completes and its task is still inside the
`await sleep(downloadDelay)` when `B` is moved into the freed slot. -/
def c8sF : DMState :=
  fillStepAct (wakeMainAct (settleOkAct 0 0 (startOkAct 0 0 7 (fillStepAct (fillStepAct
    (startAct (addToQueueAct [rawA, rawB] 0 (DMState.init optsOne))))))))

example : c8sF.active = [1] ∧ (⟨0, .sleeping⟩ : TaskState) ∈ c8sF.tasks
    ∧ c8sF.completed = [0] := by decide

/-- Run for C9: two `addToQueue` calls at the same `Date.now()` tick, each
with one id-less item: the auto ids collide. -/
def c9sF : DMState :=
  addToQueueAct [rawNoId] 100 (addToQueueAct [rawNoId] 100 (DMState.init opts0))

example : c9sF.store.length = 2 ∧ (c9sF.item 0).id = (c9sF.item 1).id
    ∧ (c9sF.item 0).id = "item_100_0" := by decide

/-! ### The claims -/

/-- C1 (amended): in every run state reached before any cancel() call, and
provided the enqueued items carry pairwise-distinct ids, every enqueued item
lies in exactly one of the four collections (queued, active, completed,
failed), and the sum of the four collection sizes equals the cumulative
number of items enqueued since init. -/
theorem C1_conservation : ∀ (opts : Options) (s : DMState), Reach opts s →
    s.everCancelled = false → IdsDistinct s →
    (∀ tok, tok < s.store.length → cntAll s tok = 1) ∧
    s.queue.length + s.active.length + s.completed.length + s.failed.length
      = s.store.length := by
  intro opts s h hec hids
  have hp := partInv_reach h hec hids
  exact ⟨hp.cnt_one, hp.len_sum⟩

/-- C1 counterexample: with two items sharing the id "a", the second item's
success splices the *first* item out of the active set, leaving the first
enqueued item (token 0) in none of the four collections before any
cancellation — "every enqueued item is in exactly one collection" fails as
stated. -/
theorem C1_counterexample :
    Reach opts0 c1sF ∧ c1sF.everCancelled = false ∧ 0 < c1sF.store.length ∧
    cntAll c1sF 0 = 0 := by
  refine ⟨?_, by decide, by decide, by decide⟩
  exact Reach.tail (Reach.tail (Reach.tail (Reach.tail (Reach.tail (Reach.tail (Reach.tail
    Reach.refl
    (Step.enqueue [rawA, rawDupA] 0 (by decide)))
    (Step.startCall (by decide)))
    (Step.fill (by decide)))
    (Step.fill (by decide)))
    (Step.fill (by decide)))
    (Step.startOk 1 1 7 (by decide) (by decide) (by decide)))
    (Step.complete 1 1 7 (by decide) (by decide))

def c1w : DMState := addToQueueAct [rawA] 5 (DMState.init opts0)

theorem C1_conservation_witness :
    c1w.queue.length + c1w.active.length + c1w.completed.length + c1w.failed.length
      = c1w.store.length :=
  (C1_conservation opts0 c1w
    (Reach.tail Reach.refl (Step.enqueue [rawA] 5 (by decide)))
    (by decide) (by show (c1w.store.map ItemData.id).Nodup; decide)).2

/-- C2 (confirmed): in every reachable state of a run, no item's retry
counter exceeds the configured limit; a token appears at most once in the
failed collection; a failed token is never simultaneously queued, and it
stays failed across any further step; and a failure with retries remaining
requeues the item at the front with its counter incremented. -/
theorem C2_retry_bound : ∀ (opts : Options) (s : DMState), Reach opts s →
    (∀ it ∈ s.store, it.retries ≤ s.retryAttempts) ∧
    (∀ tok, s.failed.count tok ≤ 1) ∧
    (∀ tok, tok ∈ s.failed → tok ∉ s.queue) ∧
    (∀ s' : DMState, Step s s' → ∀ tok, tok ∈ s.failed → tok ∈ s'.failed) ∧
    (∀ tok, tok < s.store.length → (s.item tok).retries < s.retryAttempts →
      (failBody tok s).queue = tok :: s.queue ∧
      ((failBody tok s).item tok).retries = (s.item tok).retries + 1) := by
  intro opts s h
  have hm := masterInv_reach h
  refine ⟨hm.retries_le, ?_, ?_, ?_, ?_⟩
  · intro tok
    have := hm.occ_le_one tok
    rw [occCount_eq] at this
    omega
  · intro tok hmem hqmem
    have hocc := hm.occ_le_one tok
    rw [occCount_eq] at hocc
    have h1 : 0 < s.failed.count tok := List.count_pos_iff.mpr hmem
    have h2 : 0 < s.queue.count tok := List.count_pos_iff.mpr hqmem
    omega
  · intro s' hstep tok hmem
    exact Step.failed_mem_mono hstep hmem
  · intro tok htok hret
    exact failBody_requeue htok hret

def c2w : DMState := addToQueueAct [rawA] 3 (DMState.init opts0)

theorem C2_retry_bound_witness : c2w.failed.count 0 ≤ 1 :=
  (C2_retry_bound opts0 c2w
    (Reach.tail Reach.refl (Step.enqueue [rawA] 3 (by decide)))).2.1 0

/-- C3 (code bug): immediately after cancel() the queued and active
collections are empty, but the platform abort primitive is *never* invoked
for the in-flight items: no code path assigns an item's downloadId, so the
guard in cancel() is always false.  The run below has an item in flight with
handle 7 at the moment of cancellation and the abort log stays empty; the
first conjunct shows the abort log is empty in every reachable state of
every run. -/
theorem C3_cancel_no_abort :
    (∀ (opts : Options) (s : DMState), Reach opts s → s.aborted = []) ∧
    Reach opts0 c3sF ∧ c3pre.active = [0] ∧ c3pre.tasks = [⟨0, .inFlight 7⟩] ∧
    c3sF.queue = [] ∧ c3sF.active = [] ∧ c3sF.aborted = [] := by
  refine ⟨fun opts s h => aborted_nil_reach h, ?_, by decide, by decide,
    by decide, by decide, by decide⟩
  exact Reach.tail (Reach.tail (Reach.tail (Reach.tail (Reach.tail (Reach.tail
    Reach.refl
    (Step.enqueue [rawA] 0 (by decide)))
    (Step.startCall (by decide)))
    (Step.fill (by decide)))
    (Step.fill (by decide)))
    (Step.startOk 0 0 7 (by decide) (by decide) (by decide)))
    (Step.cancelCall (by decide))

theorem C3_cancel_no_abort_witness : c3sF.aborted = [] :=
  C3_cancel_no_abort.1 opts0 c3sF C3_cancel_no_abort.2.1

/-- C4 (code bug): the settlement handlers of processItem never check the
cancellation flag, so an item that settles after cancel() is still recorded:
a post-cancel success is pushed onto the completed collection, a post-cancel
failure with retries remaining is pushed back onto the cleared queue, and a
post-cancel exhausted failure fires the per-item error callback. -/
theorem C4_post_cancel_settlement :
    (Reach opts0 c4sF ∧ c4mid.everCancelled = true ∧ c4mid.completed = [] ∧
      c4sF.completed = [0]) ∧
    (Reach opts0 c4tF ∧ c4tmid.everCancelled = true ∧ c4tmid.queue = [] ∧
      c4tF.queue = [0]) ∧
    (Reach optsR1 c4uF ∧ c4umid.everCancelled = true ∧ c4umid.errorCalls = [] ∧
      c4uF.errorCalls = [0] ∧ c4uF.failed = [0]) := by
  refine ⟨⟨?_, by decide, by decide, by decide⟩, ⟨?_, by decide, by decide, by decide⟩,
    ⟨?_, by decide, by decide, by decide, by decide⟩⟩
  · exact Reach.tail (Reach.tail (Reach.tail (Reach.tail (Reach.tail (Reach.tail (Reach.tail
      Reach.refl
      (Step.enqueue [rawA] 0 (by decide)))
      (Step.startCall (by decide)))
      (Step.fill (by decide)))
      (Step.fill (by decide)))
      (Step.startOk 0 0 7 (by decide) (by decide) (by decide)))
      (Step.cancelCall (by decide)))
      (Step.complete 0 0 7 (by decide) (by decide))
  · exact Reach.tail (Reach.tail (Reach.tail (Reach.tail (Reach.tail (Reach.tail (Reach.tail
      Reach.refl
      (Step.enqueue [rawB] 0 (by decide)))
      (Step.startCall (by decide)))
      (Step.fill (by decide)))
      (Step.fill (by decide)))
      (Step.startOk 0 0 7 (by decide) (by decide) (by decide)))
      (Step.cancelCall (by decide)))
      (Step.interrupted 0 0 7 (by decide) (by decide))
  · exact Reach.tail (Reach.tail (Reach.tail (Reach.tail (Reach.tail (Reach.tail (Reach.tail
      (Reach.tail (Reach.tail (Reach.tail (Reach.tail
      Reach.refl
      (Step.enqueue [rawA] 0 (by decide)))
      (Step.startCall (by decide)))
      (Step.fill (by decide)))
      (Step.fill (by decide)))
      (Step.startFail 0 0 (by decide) (by decide)))
      (Step.wakeMain (by decide)))
      (Step.fill (by decide)))
      (Step.fill (by decide)))
      (Step.startOk 1 0 9 (by decide) (by decide) (by decide)))
      (Step.cancelCall (by decide)))
      (Step.interrupted 1 0 9 (by decide) (by decide))

/-- C5 (confirmed): the only step that moves an item into the active set
pops it from the head of the queue (FIFO), a failure with retries remaining
pushes the item back onto the *front* of the queue, and in the concrete run
with queue [A, B, C] where A fails once, the item pulled next is A. -/
theorem C5_fifo_retry_priority :
    (∀ (s s' : DMState), Step s s' → ∀ x, x ∉ s.active → x ∈ s'.active →
      s.queue = x :: s'.queue) ∧
    (∀ (s : DMState) (tok : Nat), tok < s.store.length →
      (s.item tok).retries < s.retryAttempts →
      (failBody tok s).queue = tok :: s.queue) ∧
    (Reach optsOne c5sF ∧ c5sF.active = [0] ∧ c5sF.queue = [1, 2] ∧
      (c5sF.item 0).retries = 1) := by
  refine ⟨fun s s' h x => step_fill_head h x,
    fun s tok htok hret => (failBody_requeue htok hret).1,
    ?_, by decide, by decide, by decide⟩
  exact Reach.tail (Reach.tail (Reach.tail (Reach.tail (Reach.tail (Reach.tail (Reach.tail
    Reach.refl
    (Step.enqueue [rawA, rawB, rawC] 0 (by decide)))
    (Step.startCall (by decide)))
    (Step.fill (by decide)))
    (Step.fill (by decide)))
    (Step.startFail 0 0 (by decide) (by decide)))
    (Step.wakeMain (by decide)))
    (Step.fill (by decide))

def c5mid : DMState :=
  fillStepAct (fillStepAct (startAct (addToQueueAct [rawA, rawB, rawC] 0
    (DMState.init optsOne))))

theorem C5_fifo_retry_priority_witness : (failBody 0 c5mid).queue = 0 :: c5mid.queue :=
  C5_fifo_retry_priority.2.1 c5mid 0 (by decide) (by decide)

/-- C6 (confirmed): at every observation point of every run the active set
holds at most maxConcurrent items, and no step grows the active set while it
is already full. -/
theorem C6_bounded_concurrency : ∀ (opts : Options) (s : DMState), Reach opts s →
    s.active.length ≤ s.maxConcurrent ∧
    (∀ s' : DMState, Step s s' → s.maxConcurrent ≤ s.active.length →
      ¬s.active.length < s'.active.length) := by
  intro opts s h
  refine ⟨activeLen_le_reach h, ?_⟩
  intro s' hstep hfull hgrow
  rcases Step.active_growth hstep with hle | ⟨hlt, _⟩
  · omega
  · omega

theorem C6_bounded_concurrency_witness :
    (DMState.init opts0).active.length ≤ (DMState.init opts0).maxConcurrent :=
  (C6_bounded_concurrency opts0 (DMState.init opts0) Reach.refl).1

def longSegUrl : String :=
  "https://x.com/" ++ String.mk (List.replicate 210 'a') ++ ".jpg"

def longClamped : String :=
  String.mk (List.replicate 196 'a') ++ ".jpg"

set_option maxRecDepth 100000 in
/-- C7 (amended): the derived filename is the last URL path segment with the
disallowed filesystem characters *replaced by underscores* (not removed) and
the length clamped to 200 with the extension preserved; a segment with no
extension gets .mp4 appended when the URL carries a recognized video
extension and .jpg otherwise.  Witnessed on the spec's examples, a
video-signal URL, a disallowed-character URL and a 214-character segment. -/
theorem C7_filename_derivation :
    extractFilename 0 "https://cdn.example/abc.jpg?w=200" = "abc.jpg" ∧
    extractFilename 0 "https://cdn.example/video.webm" = "video.webm" ∧
    extractFilename 0 "https://cdn.example/noext" = "noext.jpg" ∧
    extractFilename 0 "https://x.com/clip?f=.mp4" = "clip.mp4" ∧
    extractFilename 0 "https://x.com/a:b" = "a_b.jpg" ∧
    extractFilename 0 longSegUrl = longClamped ∧
    (extractFilename 0 longSegUrl).length = 200 := by
  refine ⟨by decide, by decide, by decide, by decide, by decide, by decide, by decide⟩

/-- C7 counterexample: the claim says disallowed characters are removed, but
the code replaces them with underscores: on https://x.com/a:b the code
yields "a_b.jpg" while the removal reading of the claim yields "ab.jpg". -/
theorem C7_counterexample :
    extractFilename 0 "https://x.com/a:b" = "a_b.jpg" ∧
    extractFilenameRemoving 0 "https://x.com/a:b" = "ab.jpg" ∧
    extractFilename 0 "https://x.com/a:b" ≠ extractFilenameRemoving 0 "https://x.com/a:b" := by
  refine ⟨by decide, by decide, by decide⟩

/-- C8 (code bug): the finally clause of processItem removes the item from
the active set *before* sleeping for downloadDelay, so the slot is free
immediately: in the one-slot run below, item B (token 1) is already active
while item A's task (token 0) is still inside its post-completion delay. -/
theorem C8_slot_freed_before_delay :
    Reach optsOne c8sF ∧ c8sF.active = [1] ∧
    (⟨0, .sleeping⟩ : TaskState) ∈ c8sF.tasks ∧ c8sF.completed = [0] := by
  refine ⟨?_, by decide, by decide, by decide⟩
  exact Reach.tail (Reach.tail (Reach.tail (Reach.tail (Reach.tail (Reach.tail (Reach.tail
    (Reach.tail
    Reach.refl
    (Step.enqueue [rawA, rawB] 0 (by decide)))
    (Step.startCall (by decide)))
    (Step.fill (by decide)))
    (Step.fill (by decide)))
    (Step.startOk 0 0 7 (by decide) (by decide) (by decide)))
    (Step.complete 0 0 7 (by decide) (by decide)))
    (Step.wakeMain (by decide)))
    (Step.fill (by decide))

/-- C9 (amended): within a single addToQueue call, items supplied without an
id receive pairwise-distinct auto ids; across separate calls at the same
Date.now() tick the auto ids can collide (see the counterexample). -/
theorem C9_same_call_auto_ids : ∀ (s : DMState) (raws : List RawItem) (now i j : Nat),
    i < raws.length → j < raws.length → i ≠ j →
    (raws.getD i default).id = none → (raws.getD j default).id = none →
    ((addToQueueAct raws now s).item (s.store.length + i)).id ≠
    ((addToQueueAct raws now s).item (s.store.length + j)).id := by
  intro s raws now i j hi hj hij hni hnj
  rw [addToQueue_item raws now i, addToQueue_item raws now j,
    normalizeItems_id now raws 0 i hi, normalizeItems_id now raws 0 j hj, hni, hnj]
  simp only [orDefaultStr, Nat.zero_add]
  exact autoId_inj now hij

theorem C9_same_call_auto_ids_witness :
    ((addToQueueAct [rawNoId, rawNoId] 100 (DMState.init opts0)).item
      ((DMState.init opts0).store.length + 0)).id ≠
    ((addToQueueAct [rawNoId, rawNoId] 100 (DMState.init opts0)).item
      ((DMState.init opts0).store.length + 1)).id :=
  C9_same_call_auto_ids (DMState.init opts0) [rawNoId, rawNoId] 100 0 1
    (by decide) (by decide) (by decide) (by decide) (by decide)

/-- C9 counterexample: two enqueue calls in the same millisecond, each with
one id-less item, assign the *same* id "item_100_0" to two distinct enqueued
items. -/
theorem C9_counterexample :
    Reach opts0 c9sF ∧ c9sF.store.length = 2 ∧
    (c9sF.item 0).id = (c9sF.item 1).id := by
  refine ⟨?_, by decide, by decide⟩
  exact Reach.tail (Reach.tail
    Reach.refl
    (Step.enqueue [rawNoId] 100 (by decide)))
    (Step.enqueue [rawNoId] 100 (by decide))

/-- C10 (confirmed): init coalesces falsy numeric options — zero (or an
absent value) for maxConcurrent, downloadDelay (the inter-item delay) or
retryAttempts yields the defaults 3, 200 and 3; in particular the retry
limit can never be configured to 0; and init always resets the four
collections to empty and both run flags to false. -/
theorem C10_init_coalescing :
    (DMState.init ⟨some 0, some 0, some 0, none⟩).maxConcurrent = 3 ∧
    (DMState.init ⟨some 0, some 0, some 0, none⟩).downloadDelay = 200 ∧
    (DMState.init ⟨some 0, some 0, some 0, none⟩).retryAttempts = 3 ∧
    (∀ opts : Options, (DMState.init opts).retryAttempts ≠ 0) ∧
    (∀ opts : Options, (DMState.init opts).queue = [] ∧ (DMState.init opts).active = [] ∧
      (DMState.init opts).completed = [] ∧ (DMState.init opts).failed = [] ∧
      (DMState.init opts).isPaused = false ∧ (DMState.init opts).isCancelled = false) := by
  refine ⟨by decide, by decide, by decide, ?_, ?_⟩
  · intro opts
    show orDefaultNat opts.retryAttempts 3 ≠ 0
    unfold orDefaultNat
    cases opts.retryAttempts with
    | none =>
      show (3 : Nat) ≠ 0
      omega
    | some n =>
      show (if n = 0 then 3 else n) ≠ 0
      split_ifs with h
      · omega
      · exact h
  · intro opts
    exact ⟨rfl, rfl, rfl, rfl, rfl, rfl⟩

theorem C10_init_coalescing_witness : (DMState.init opts0).retryAttempts ≠ 0 :=
  C10_init_coalescing.2.2.2.1 opts0
